import Mathlib

/-!
VideoDecoder (webrtc_server) : decode worker, codec session and playback pacer

A shallow embedding of `cpp/open3d/visualization/webrtc_server/VideoDecoder.h`, followed
by one of the download-and-verify routine of `cpp/open3d/data/Download.cpp`.

* C++ members of `VideoDecoder` become the fields of the structure `VideoDecoder`.
* What the class does to its collaborators (the sink, the decoder instance, the
  calling thread's sleep, the log) is recorded in observation logs kept in `World`.
* `int64_t` arithmetic is integer arithmetic reduced to the two's-complement range
  (`toInt64`), `uint32_t` values are naturals reduced modulo `2 ^ 32`.
* The worker thread is a small-step machine; producer calls (`PostFrame`), the three
  statements of `Stop()`, `Start()` and worker steps are interleaved by a schedule.
-/

namespace open3d.visualization.webrtc_server

/-! ## Machine integers -/

/-- Value of an integer once stored in an `int64_t` (two's complement). -/
def toInt64 (n : Int) : Int := (n + 2 ^ 63) % 2 ^ 64 - 2 ^ 63

/-- Value of a natural number once stored in a `uint32_t`. -/
def toUInt32 (n : Nat) : Nat := n % 2 ^ 32

/-- The range of `int64_t`. -/
def InInt64 (n : Int) : Prop := -(2 ^ 63) ≤ n ∧ n < 2 ^ 63

instance (n : Int) : Decidable (InInt64 n) := by
  unfold InInt64; infer_instance

/-! ## Data model -/

/-- The frame kinds of `webrtc::VideoFrameType`. -/
inductive VideoFrameType where
  | kEmptyFrame
  | kVideoFrameKey
  | kVideoFrameDelta
  deriving DecidableEq, Repr

/-- The private class `VideoDecoder::Frame`.  `content_` is the ref-counted buffer
(`none` is the null pointer); `frame_type_` is `none` when the default constructor
left it uninitialised. -/
structure Frame where
  content_ : Option (List UInt8)
  timestamp_ms_ : Nat
  frame_type_ : Option VideoFrameType
  deriving DecidableEq, Repr

/-- The default constructor `Frame() : timestamp_ms_(0) {}`. -/
def Frame.default : Frame :=
  { content_ := none, timestamp_ms_ := 0, frame_type_ := none }

/-- The three-argument constructor of `Frame`. -/
def Frame.mk3 (content : Option (List UInt8)) (timestamp_ms : Nat)
    (frame_type : VideoFrameType) : Frame :=
  { content_ := content, timestamp_ms_ := timestamp_ms, frame_type_ := some frame_type }

/-- The part of `webrtc::EncodedImage` the worker fills in. -/
structure EncodedImage where
  encoded_data_ : Option (List UInt8)
  _frameType : Option VideoFrameType
  timestamp_rtp_ : Nat
  deriving DecidableEq, Repr

/-- One call `decoder_->Decode(input_image, missing_frames, render_time_ms)`. -/
structure DecodeCall where
  input_image : EncodedImage
  missing_frames : Bool
  render_time_ms : Int
  deriving DecidableEq, Repr

/-- The part of `webrtc::VideoFrame` the pacer reads; `buffer` stands for the picture. -/
structure VideoFrame where
  timestamp_rtp_ : Nat
  ntp_time_ms_ : Int
  buffer : Nat
  deriving DecidableEq, Repr

/-- The accessor `uint32_t VideoFrame::timestamp() const`. -/
def VideoFrame.timestamp (f : VideoFrame) : Nat := toUInt32 f.timestamp_rtp_

/-- Control point of `decoder_thread_`. -/
inductive ThreadState where
  /-- Not joinable: never started, or joined. -/
  | notStarted
  /-- About to evaluate the loop condition `!stop_`. -/
  | loopHead
  /-- Inside the loop body, before `queue_.front()` (waits while the queue is empty). -/
  | waitPop
  /-- `DecoderThread` has returned; the thread is still joinable. -/
  | finished
  /-- The process left defined behaviour (null decoder dereferenced, `std::terminate`,
  `join` on a thread that is not joinable). -/
  | fault
  deriving DecidableEq, Repr

/-- The data members of `VideoDecoder`.  `decoder_` holds the identity of the owned
decoder instance (`none` is the null `unique_ptr`). -/
structure VideoDecoder where
  decoder_ : Option Nat
  queue_ : List Frame
  decoder_thread_ : ThreadState
  stop_ : Bool
  wait_ : Bool
  previmagets_ : Int
  prevts_ : Int
  deriving DecidableEq, Repr

/-- The constructor `VideoDecoder(broadcaster, opts, wait)`. -/
def VideoDecoder.new (wait : Bool) : VideoDecoder :=
  { decoder_ := none, queue_ := [], decoder_thread_ := .notStarted,
    stop_ := false, wait_ := wait, previmagets_ := 0, prevts_ := 0 }

/-- What the pipeline does to the outside, in program order. -/
inductive Event where
  /-- The call `std::this_thread::sleep_for(std::chrono::milliseconds(ms))`. -/
  | sleep_for (ms : Int)
  /-- The call `broadcaster_.OnFrame(frame)`. -/
  | OnFrame (frame : VideoFrame)
  /-- The line `RTC_LOG(LS_ERROR) << "VideoDecoder::DecoderThread failure:" << res`. -/
  | logFailure (res : Int)
  deriving DecidableEq, Repr

/-- Total time slept in a run of events, in milliseconds. -/
def sleptMs : List Event → Int
  | [] => 0
  | Event.sleep_for ms :: es => ms + sleptMs es
  | _ :: es => sleptMs es

/-- The frames handed to the sink in a run of events, in call order. -/
def sinkFrames : List Event → List VideoFrame
  | [] => []
  | Event.OnFrame f :: es => f :: sinkFrames es
  | _ :: es => sinkFrames es

/-! ## Playback pacer : `Decoded` -/

/-- The expression `clock::now().time_since_epoch().count() / 1000 / 1000` for a clock
whose 64-bit `count()` is `count`; C++ division truncates toward zero. -/
def nowMs (count : Int) : Int := Int.tdiv (Int.tdiv (toInt64 count) 1000) 1000

/-- The local `delayms` of `Decoded`, computed as the code does in `int64_t`. -/
def delayms (s : VideoDecoder) (decodedImage : VideoFrame) (ts : Int) : Int :=
  let periodSource := toInt64 ((decodedImage.timestamp : Int) - s.previmagets_)
  let periodDecode := toInt64 (ts - s.prevts_)
  toInt64 (periodSource - periodDecode)

/-- The block under `// Waiting.` : the sleeps it performs. -/
def waiting (s : VideoDecoder) (decodedImage : VideoFrame) (ts : Int) : List Event :=
  if s.wait_ && (s.prevts_ != 0) then
    if decide (delayms s decodedImage ts > 0) && decide (delayms s decodedImage ts < 1000) then
      [Event.sleep_for (delayms s decodedImage ts)]
    else []
  else []

/-- The callback `Decoded(decodedImage)`.  `clock1` is the clock count read on entry,
`clock2` the count read after the sleep and the forward.  Returns the new members, the
events in program order and the return value. -/
def Decoded (s : VideoDecoder) (decodedImage : VideoFrame) (clock1 clock2 : Int) :
    VideoDecoder × List Event × Int :=
  let ts := nowMs clock1
  let slept := waiting s decodedImage ts
  let forwarded := [Event.OnFrame decodedImage]
  ({ s with previmagets_ := (decodedImage.timestamp : Int), prevts_ := nowMs clock2 },
   slept ++ forwarded, 1)

/-! ## Codec session : `createDecoder`, `destroyDecoder`, `hasDecoder` -/

/-- The values of `webrtc::VideoCodecType` the class assigns. -/
inductive VideoCodecType where
  | kVideoCodecH264
  | kVideoCodecVP9
  deriving DecidableEq, Repr

/-- A decoder instance made by `factory_` that has not been destroyed.
`initDecode` lists the `InitDecode(&codec_settings, number_of_cores)` calls it got
(`none` is the codec type of a default-constructed `webrtc::VideoCodec`),
`callback` tells whether `RegisterDecodeCompleteCallback(this)` was called on it. -/
structure DecoderObj where
  id : Nat
  format : String
  initDecode : List (Option VideoCodecType × Nat)
  callback : Bool
  deriving DecidableEq, Repr

/-- The pipeline together with what surrounds it: the decoder instances alive on the
heap, and the logs of what was enqueued, dequeued, submitted to `Decode`, and done to
the outside. -/
structure World where
  vd : VideoDecoder
  heap : List DecoderObj
  nextId : Nat
  pushed : List Frame
  popped : List Frame
  submitted : List DecodeCall
  events : List Event
  deriving DecidableEq, Repr

/-- A freshly constructed pipeline. -/
def World.new (wait : Bool) : World :=
  { vd := VideoDecoder.new wait, heap := [], nextId := 0,
    pushed := [], popped := [], submitted := [], events := [] }

/-- The constant `cricket::kH264CodecName`. -/
def kH264CodecName : String := "H264"

/-- The constant `cricket::kVp9CodecName`. -/
def kVp9CodecName : String := "VP9"

/-- The call `factory_.CreateVideoDecoder(SdpVideoFormat(format))`: when the factory
`yields` for the format a new instance is allocated, otherwise the result is null. -/
def CreateVideoDecoder (yields : String → Bool) (w : World) (format : String) :
    World × Option Nat :=
  if yields format then
    ({ w with
        heap := w.heap ++ [{ id := w.nextId, format := format, initDecode := [],
                             callback := false }],
        nextId := w.nextId + 1 },
     some w.nextId)
  else (w, none)

/-- Move assignment `decoder_ = p` (also `decoder_.reset(p)`): the instance owned
before is destroyed. -/
def assignDecoder (w : World) (p : Option Nat) : World :=
  { w with
    vd := { w.vd with decoder_ := p },
    heap := match w.vd.decoder_ with
      | none => w.heap
      | some old => w.heap.filter (fun o => o.id != old) }

/-- The two calls under `if (decoder_.get() != nullptr)` in `createDecoder`. -/
def initAndRegister (w : World) (codecType : Option VideoCodecType) : World :=
  match w.vd.decoder_ with
  | none => w
  | some d =>
    { w with heap := w.heap.map (fun o =>
        if o.id = d then
          { o with initDecode := o.initDecode ++ [(codecType, 2)], callback := true }
        else o) }

/-- The method `createDecoder(codec)`. -/
def createDecoder (yields : String → Bool) (w : World) (codec : String) : World :=
  if codec = "H264" then
    let r := CreateVideoDecoder yields w kH264CodecName
    initAndRegister (assignDecoder r.1 r.2) (some .kVideoCodecH264)
  else if codec = "VP9" then
    let r := CreateVideoDecoder yields w kVp9CodecName
    initAndRegister (assignDecoder r.1 r.2) (some .kVideoCodecVP9)
  else
    initAndRegister w none

/-- The method `destroyDecoder()`. -/
def destroyDecoder (w : World) : World := assignDecoder w none

/-- The method `hasDecoder()`. -/
def hasDecoder (w : World) : Bool := w.vd.decoder_.isSome

/-- A call of the codec session interface. -/
inductive SessionCall where
  | createDecoder (codec : String)
  | destroyDecoder
  deriving DecidableEq, Repr

/-- Perform one call of the codec session interface. -/
def SessionCall.run (yields : String → Bool) (w : World) : SessionCall → World
  | .createDecoder codec => open3d.visualization.webrtc_server.createDecoder yields w codec
  | .destroyDecoder => open3d.visualization.webrtc_server.destroyDecoder w

/-- Perform a sequence of calls of the codec session interface, left to right. -/
def runSession (yields : String → Bool) (w : World) (calls : List SessionCall) : World :=
  calls.foldl (SessionCall.run yields) w

/-! ## Decode worker : `PostFrame`, `Start`, `Stop`, `DecoderThread` -/

/-- What one call of `decoder_->Decode` does: its return value, and the decoded frames
it hands to the registered callback during the call, each with the two clock counts
that callback will read. -/
structure DecodeOutcome where
  res : Int
  callbacks : List (VideoFrame × Int × Int)

/-- The macro `WEBRTC_VIDEO_CODEC_OK`. -/
def WEBRTC_VIDEO_CODEC_OK : Int := 0

/-- Enqueue a record: `queue_.push(frame)` under the lock. -/
def queuePush (w : World) (frame : Frame) : World :=
  { w with vd := { w.vd with queue_ := w.vd.queue_ ++ [frame] },
           pushed := w.pushed ++ [frame] }

/-- The method `PostFrame(content, ts, frame_type)`. -/
def PostFrame (w : World) (content : Option (List UInt8)) (ts : Nat)
    (frame_type : VideoFrameType) : World :=
  queuePush w (Frame.mk3 content ts frame_type)

/-- Run the decode-complete callbacks of one `Decode` call, in order. -/
def runCallbacks (w : World) : List (VideoFrame × Int × Int) → World
  | [] => w
  | (f, c1, c2) :: rest =>
    let r := Decoded w.vd f c1 c2
    runCallbacks { w with vd := r.1, events := w.events ++ r.2.1 } rest

/-- The arguments the worker passes to `Decode` for a frame with payload. -/
def decodeCallOf (frame : Frame) : DecodeCall :=
  { input_image :=
      { encoded_data_ := frame.content_,
        _frameType := frame.frame_type_,
        timestamp_rtp_ := toUInt32 frame.timestamp_ms_ },
    missing_frames := false,
    render_time_ms := toInt64 frame.timestamp_ms_ }

/-- A popped record is submitted when its buffer is non-null and has non-zero size. -/
def Frame.hasPayload (frame : Frame) : Bool :=
  match frame.content_ with
  | none => false
  | some buf => buf.length != 0

/-- The part of the loop body after `mlock.unlock()` for the popped `frame`. -/
def processFrame (dec : DecodeCall → DecodeOutcome) (w : World) (frame : Frame) : World :=
  match frame.content_ with
  | none => w
  | some buf =>
    if buf.length != 0 then
      match w.vd.decoder_ with
      | none => { w with vd := { w.vd with decoder_thread_ := .fault } }
      | some _ =>
        let call := decodeCallOf frame
        let out := dec call
        let w1 := runCallbacks { w with submitted := w.submitted ++ [call] } out.callbacks
        if out.res != WEBRTC_VIDEO_CODEC_OK then
          { w1 with events := w1.events ++ [Event.logFailure out.res] }
        else w1
    else w

/-- One step of `DecoderThread`.  At the loop head the flag `stop_` is read; in the
body the thread waits while the queue is empty, else pops the front record and
processes it, returning to the loop head.  Processing reads neither the queue nor
`stop_`, so it forms one step with the pop: a concurrent push or `stop_ = true` during
the decode has the effect it would have right after it. -/
def DecoderThread.step (dec : DecodeCall → DecodeOutcome) (w : World) : World :=
  match w.vd.decoder_thread_ with
  | .loopHead =>
    if w.vd.stop_ then { w with vd := { w.vd with decoder_thread_ := .finished } }
    else { w with vd := { w.vd with decoder_thread_ := .waitPop } }
  | .waitPop =>
    match w.vd.queue_ with
    | [] => w
    | frame :: rest =>
      let w1 : World :=
        { w with vd := { w.vd with queue_ := rest, decoder_thread_ := .loopHead },
                 popped := w.popped ++ [frame] }
      processFrame dec w1 frame
  | _ => w

/-- The method `Start()`: assigning to a joinable `std::thread` ends the process. -/
def Start (w : World) : World :=
  let w1 : World := { w with vd := { w.vd with stop_ := false } }
  match w1.vd.decoder_thread_ with
  | .notStarted => { w1 with vd := { w1.vd with decoder_thread_ := .loopHead } }
  | .fault => w1
  | _ => { w1 with vd := { w1.vd with decoder_thread_ := .fault } }

/-- First statement of `Stop()`: `stop_ = true`. -/
def Stop.setFlag (w : World) : World := { w with vd := { w.vd with stop_ := true } }

/-- Second statement of `Stop()`: push a default-constructed `Frame`. -/
def Stop.push (w : World) : World := queuePush w Frame.default

/-- Last statement of `Stop()`: `decoder_thread_.join()`.  It returns once the thread
has finished; until then the caller stays blocked. -/
def Stop.join (w : World) : World :=
  match w.vd.decoder_thread_ with
  | .finished => { w with vd := { w.vd with decoder_thread_ := .notStarted } }
  | .notStarted => { w with vd := { w.vd with decoder_thread_ := .fault } }
  | _ => w

/-- An atomic action of one of the threads. -/
inductive Action where
  | PostFrame (content : Option (List UInt8)) (ts : Nat) (frame_type : VideoFrameType)
  | Start
  | stopSetFlag
  | stopPush
  | stopJoin
  | worker (dec : DecodeCall → DecodeOutcome)

/-- Perform one action; nothing happens any more once the process is at fault. -/
def step (w : World) (a : Action) : World :=
  if w.vd.decoder_thread_ = .fault then w
  else
    match a with
    | .PostFrame content ts frame_type =>
      open3d.visualization.webrtc_server.PostFrame w content ts frame_type
    | .Start => open3d.visualization.webrtc_server.Start w
    | .stopSetFlag => open3d.visualization.webrtc_server.Stop.setFlag w
    | .stopPush => open3d.visualization.webrtc_server.Stop.push w
    | .stopJoin => open3d.visualization.webrtc_server.Stop.join w
    | .worker dec => DecoderThread.step dec w

/-- Perform a schedule of actions, left to right. -/
def run (w : World) (schedule : List Action) : World := schedule.foldl step w

/-! ## Parameter extractor : `getInitFrames` -/

/-- The C function `strstr(haystack, needle)`: the suffix of `haystack` that starts at
the first occurrence of `needle`, or null. -/
def strstr : List Char → List Char → Option (List Char)
  | [], needle => if needle.isEmpty then some [] else none
  | c :: cs, needle =>
    if needle.isPrefixOf (c :: cs) then some (c :: cs) else strstr cs needle

/-- The member `std::string::find_first_of(chars)`: `none` is `npos`. -/
def find_first_of (str chars : List Char) : Option Nat :=
  str.findIdx? (fun c => chars.contains c)

/-- The literal `"sprop-parameter-sets="`. -/
def pattern : List Char := "sprop-parameter-sets=".toList

/-- The string `sdpstr` handed to `DecodeSprop`, for the match `sprop` of the pattern. -/
def isolate (sprop : List Char) : List Char :=
  let sdpstr := sprop.drop pattern.length
  match find_first_of sdpstr " ;\r\n".toList with
  | some pos => sdpstr.take pos
  | none => sdpstr

/-- The method `getInitFrames(codec, sdp)`.  `H26X_marker` is the start-code constant
and `DecodeSprop` the parser of `webrtc::H264SpropParameterSets`, which on success
yields `sps_nalu()` and `pps_nalu()`. -/
def getInitFrames (H26X_marker : List UInt8)
    (DecodeSprop : List Char → Option (List UInt8 × List UInt8))
    (codec : String) (sdp : List Char) : List (List UInt8) :=
  if codec = "H264" then
    match strstr sdp pattern with
    | some sprop =>
      match DecodeSprop (isolate sprop) with
      | some (sps_nalu, pps_nalu) =>
        let frames : List (List UInt8) := []
        let sps := H26X_marker ++ sps_nalu
        let frames := frames ++ [sps]
        let pps := H26X_marker ++ pps_nalu
        frames ++ [pps]
      | none => []
    | none => []
  else []

/-- What every reachable pacing state satisfies: `previmagets_` holds zero or a 32-bit
timestamp, `prevts_` holds zero or a millisecond clock reading. -/
def PacingInv (s : VideoDecoder) : Prop :=
  (0 ≤ s.previmagets_ ∧ s.previmagets_ < 2 ^ 32) ∧
  (-9223372036855 ≤ s.prevts_ ∧ s.prevts_ ≤ 9223372036855)

instance (s : VideoDecoder) : Decidable (PacingInv s) := by
  unfold PacingInv; infer_instance

/-- The identities of the decoder instances that are alive. -/
def liveIds (w : World) : List Nat := w.heap.map (fun o => o.id)

/-- What every reachable codec session satisfies: the live instances are exactly the one
owned by `decoder_`, if any, and identities not yet handed out are fresh. -/
def SessionInv (w : World) : Prop :=
  liveIds w = w.vd.decoder_.toList ∧ ∀ i ∈ liveIds w, i < w.nextId

/-- The part of the world that is independent of what the decoder answers: the
queue, the worker's control point, the flags, the owned decoder and the logs of
enqueued, dequeued and submitted records. -/
structure Control where
  queue_ : List Frame
  decoder_thread_ : ThreadState
  stop_ : Bool
  decoder_ : Option Nat
  pushed : List Frame
  popped : List Frame
  submitted : List DecodeCall
  deriving DecidableEq, Repr

/-- The decoder-independent part of a world. -/
def World.control (w : World) : Control :=
  { queue_ := w.vd.queue_, decoder_thread_ := w.vd.decoder_thread_, stop_ := w.vd.stop_,
    decoder_ := w.vd.decoder_, pushed := w.pushed, popped := w.popped,
    submitted := w.submitted }

/-- The record an action enqueues, if any. -/
def enqueuedBy : Action → List Frame
  | .PostFrame content ts frame_type => [Frame.mk3 content ts frame_type]
  | .stopPush => [Frame.default]
  | _ => []

/-- The records a schedule enqueues, in order. -/
def enqueued : List Action → List Frame
  | [] => []
  | a :: rest => enqueuedBy a ++ enqueued rest

/-- Two actions that differ at most in what the decoder does. -/
def Action.sameUpToDecoder : Action → Action → Prop
  | .PostFrame c t f, .PostFrame c' t' f' => c = c' ∧ t = t' ∧ f = f'
  | .Start, .Start => True
  | .stopSetFlag, .stopSetFlag => True
  | .stopPush, .stopPush => True
  | .stopJoin, .stopJoin => True
  | .worker _, .worker _ => True
  | _, _ => False

/-- The pacing sleeps that precede the first frame handed to the sink. -/
def sleepsBeforeFirstFrame : List Event → List Int
  | [] => []
  | Event.sleep_for ms :: es => ms :: sleepsBeforeFirstFrame es
  | Event.OnFrame _ :: _ => []
  | Event.logFailure _ :: es => sleepsBeforeFirstFrame es

/-- The effect of an action on the decoder-independent part of the world (shown below
to be what `step` does to it, whatever the decoder answers). -/
def Control.step (c : Control) (a : Action) : Control :=
  if c.decoder_thread_ = .fault then c
  else
    match a with
    | .PostFrame content ts frame_type =>
      { c with queue_ := c.queue_ ++ [Frame.mk3 content ts frame_type],
               pushed := c.pushed ++ [Frame.mk3 content ts frame_type] }
    | .Start =>
      match c.decoder_thread_ with
      | .notStarted => { c with stop_ := false, decoder_thread_ := .loopHead }
      | _ => { c with stop_ := false, decoder_thread_ := .fault }
    | .stopSetFlag => { c with stop_ := true }
    | .stopPush =>
      { c with queue_ := c.queue_ ++ [Frame.default], pushed := c.pushed ++ [Frame.default] }
    | .stopJoin =>
      match c.decoder_thread_ with
      | .finished => { c with decoder_thread_ := .notStarted }
      | .notStarted => { c with decoder_thread_ := .fault }
      | _ => c
    | .worker _ =>
      match c.decoder_thread_ with
      | .loopHead =>
        if c.stop_ then { c with decoder_thread_ := .finished }
        else { c with decoder_thread_ := .waitPop }
      | .waitPop =>
        match c.queue_ with
        | [] => c
        | frame :: rest =>
          if frame.hasPayload then
            match c.decoder_ with
            | none =>
              { c with queue_ := rest, decoder_thread_ := .fault,
                       popped := c.popped ++ [frame] }
            | some _ =>
              { c with queue_ := rest, decoder_thread_ := .loopHead,
                       popped := c.popped ++ [frame],
                       submitted := c.submitted ++ [decodeCallOf frame] }
          else
            { c with queue_ := rest, decoder_thread_ := .loopHead,
                     popped := c.popped ++ [frame] }
      | _ => c

/-- The effect of a schedule on the decoder-independent part of the world. -/
def Control.run (c : Control) (schedule : List Action) : Control :=
  schedule.foldl Control.step c

/-- How many more records a worker can dequeue once `stop_` is set and stays set: one
if it has already passed the loop test, none otherwise. -/
def Control.budget (c : Control) : Nat :=
  if c.decoder_thread_ = .waitPop then 1 else 0

/-- A decoder that accepts every frame and delivers one picture carrying the 32-bit
timestamp it was given; the callback reads the clock counts `c1` and `c2`. -/
def echoDecoder (c1 c2 : Int) : DecodeCall → DecodeOutcome := fun call =>
  { res := WEBRTC_VIDEO_CODEC_OK,
    callbacks := [({ timestamp_rtp_ := call.input_image.timestamp_rtp_,
                     ntp_time_ms_ := call.render_time_ms, buffer := 0 }, c1, c2)] }

/-- A decoder that rejects every frame with the error code `res`. -/
def failingDecoder (res : Int) : DecodeCall → DecodeOutcome := fun _ =>
  { res := res, callbacks := [] }

/-- A pipeline constructed with pacing enabled, holding an H264 decoder. -/
def h264World : World := createDecoder (fun _ => true) (World.new true) "H264"

/-- What every pipeline history satisfies: no pacing sleep precedes the first frame
handed to the sink, and `prevts_` is still zero while no frame has been handed over. -/
def FirstFrameInv (w : World) : Prop :=
  sleepsBeforeFirstFrame w.events = [] ∧ (sinkFrames w.events = [] → w.vd.prevts_ = 0)

/-- The start code `{0, 0, 0, 1}` used in the examples for `H26X_marker`. -/
def exampleMarker : List UInt8 := [0, 0, 0, 1]

/-- A parameter-set parser used in the examples: it accepts the single value `"abc,de"`. -/
def exampleDecodeSprop : List Char → Option (List UInt8 × List UInt8) := fun v =>
  if v = "abc,de".toList then some ([103, 66], [104, 206]) else none

/-- A parameter-set parser used in the examples: it accepts every value and yields the
value's own characters as the SPS, so that the result shows what it was handed. -/
def echoDecodeSprop : List Char → Option (List UInt8 × List UInt8) := fun v =>
  some (v.map (fun c => c.toNat.toUInt8), [])

/-- The local `periodSource` of `Decoded`: the source delta, in `int64_t`. -/
def periodSource (s : VideoDecoder) (decodedImage : VideoFrame) : Int :=
  toInt64 ((decodedImage.timestamp : Int) - s.previmagets_)

/-- The local `periodDecode` of `Decoded`: the decode delta, in `int64_t`. -/
def periodDecode (s : VideoDecoder) (ts : Int) : Int :=
  toInt64 (ts - s.prevts_)

end open3d.visualization.webrtc_server

/-! ## Download and verification : `cpp/open3d/data/Download.cpp` -/

namespace open3d.data

/-- What the download sees of the file system: the answers of
`utility::filesystem::DirectoryExists` and `FileExists`, and for every path the bytes an
`std::ifstream` reads from it (`none` when the file cannot be opened). -/
structure FileSystem where
  DirectoryExists : String → Bool
  FileExists : String → Bool
  content : String → Option (List UInt8)

/-- The collaborators of `Download.cpp` that are not part of it: the path helpers of
`utility::filesystem`, `LocateDataRoot`, whether `utility::LogError` throws, the digest
OpenSSL computes for the bytes fed to it, and the outcomes of `curl_easy_init`, `fopen`
and `curl_easy_perform` (its result code and the bytes it hands to the write callback). -/
structure Env where
  GetFileNameWithoutDirectory : String → String
  GetFileParentDirectory : String → String
  LocateDataRoot : String
  MakeDirectoryHierarchy : FileSystem → String → FileSystem
  LogErrorThrows : Bool
  SHA256 : List UInt8 → List UInt8
  curl_easy_init : Bool
  fopen : FileSystem → String → Bool
  curl_easy_perform : String → Nat × List UInt8

/-- How a call ends: it returns a value, an exception leaves it (`utility::LogError`),
or it leaves defined behaviour (a null `FILE*` is used). -/
inductive Outcome where
  | returned (value : Bool)
  | threw
  | fault
  deriving DecidableEq, Repr

/-- The constant `SHA256_DIGEST_LENGTH`. -/
def SHA256_DIGEST_LENGTH : Nat := 32

/-- The constant `buffer_size{1 << 12}` of `GetSHA256`. -/
def buffer_size : Nat := 1 <<< 12

/-- The result code `CURLE_OK`. -/
def CURLE_OK : Nat := 0

/-- The loop `while (fp.good()) { fp.read(buffer, buffer_size); SHA256_Update(...) }`:
`remaining` is the unread part of the file, `ctx` the bytes fed to the hash so far.  A
read that finds fewer than `buffer_size` bytes hits the end of the file and clears
`good()`.  The first argument bounds the number of iterations. -/
def readLoop : Nat → List UInt8 → List UInt8 → List UInt8
  | 0, _, ctx => ctx
  | fuel + 1, remaining, ctx =>
    let gcount := remaining.take buffer_size
    let ctx' := ctx ++ gcount
    if remaining.length < buffer_size then ctx'
    else readLoop fuel (remaining.drop buffer_size) ctx'

/-- One hexadecimal digit as `std::hex` prints it. -/
def hexDigit (n : Nat) : Char := "0123456789abcdef".toList.getD n '0'

/-- The output of `os << std::setw(2) << static_cast<unsigned int>(byte)` under
`std::hex` and `std::setfill('0')`. -/
def hexByte (b : UInt8) : List Char := [hexDigit (b.toNat / 16), hexDigit (b.toNat % 16)]

/-- The content of `os` after `i` iterations of the loop over `hash`. -/
def hexLoop (hash : Nat → UInt8) : Nat → List Char
  | 0 => []
  | i + 1 => hexLoop hash i ++ hexByte (hash i)

/-- The function `GetSHA256(file_path)`; `none` when `utility::LogError` throws.  The
array `hash` starts zeroed and receives the digest. -/
def GetSHA256 (env : Env) (fs : FileSystem) (file_path : String) : Option String :=
  let fed : Option (List UInt8) :=
    match fs.content file_path with
    | none => if env.LogErrorThrows then none else some []
    | some bytes => some (readLoop (bytes.length + 1) bytes [])
  match fed with
  | none => none
  | some data =>
    let hash : Nat → UInt8 := fun i => (env.SHA256 data).getD i 0
    some (String.mk (hexLoop hash SHA256_DIGEST_LENGTH))

/-- The function `ResolveFilePath(url, data_root, prefix)`; the third parameter is
called `subdir` here. -/
def ResolveFilePath (env : Env) (url data_root subdir : String) : String :=
  let file_name := env.GetFileNameWithoutDirectory url
  let file_dir := if data_root.isEmpty then env.LocateDataRoot else data_root
  let file_dir := if !subdir.isEmpty then file_dir ++ ("/" ++ subdir) else file_dir
  file_dir ++ "/" ++ file_name

/-- The file system after `fopen(file_path, "wb")` succeeded and `bytes` were written
and the file closed. -/
def written (fs : FileSystem) (file_path : String) (bytes : List UInt8) : FileSystem :=
  { fs with
    FileExists := fun p => if p = file_path then true else fs.FileExists p,
    content := fun p => if p = file_path then some bytes else fs.content p }

/-- The block `// Check and skip download if required.` : `some` outcome when the
function ends there, `none` when it goes on to the download. -/
def skipCheck (env : Env) (fs : FileSystem) (file_path sha256 : String)
    (always_download : Bool) : Option Outcome :=
  if !always_download && fs.FileExists file_path then
    if !sha256.isEmpty then
      match GetSHA256 env fs file_path with
      | none => some .threw
      | some actual_hash =>
        if sha256 = actual_hash then some (.returned true) else none
    else
      if env.LogErrorThrows then some .threw else none
  else none

/-- The block `// Download mechanism.` -/
def download (env : Env) (fs : FileSystem) (url file_path sha256 : String) :
    Outcome × FileSystem :=
  if env.curl_easy_init then
    if env.fopen fs file_path then
      let res := (env.curl_easy_perform url).1
      let fs' := written fs file_path (env.curl_easy_perform url).2
      if res = CURLE_OK then
        if !sha256.isEmpty then
          match GetSHA256 env fs' file_path with
          | none => (.threw, fs')
          | some actual_hash =>
            if sha256 = actual_hash then (.returned true, fs') else (.returned false, fs')
        else (.returned true, fs')
      else (.returned false, fs')
    else (.fault, fs)
  else (.returned false, fs)

/-- The statement `if (!DirectoryExists(file_dir)) MakeDirectoryHierarchy(file_dir);`. -/
def ensureDirectory (env : Env) (fs : FileSystem) (file_dir : String) : FileSystem :=
  if !fs.DirectoryExists file_dir then env.MakeDirectoryHierarchy fs file_dir else fs

/-- The function `DownloadFromURL(url, sha256, data_root, prefix, always_download,
print_progress)`: how it ends and the file system it leaves. -/
def DownloadFromURL (env : Env) (fs : FileSystem) (url sha256 data_root subdir : String)
    (always_download _print_progress : Bool) : Outcome × FileSystem :=
  let file_path := ResolveFilePath env url data_root subdir
  let file_dir := env.GetFileParentDirectory file_path
  let fs1 := ensureDirectory env fs file_dir
  match skipCheck env fs1 file_path sha256 always_download with
  | some outcome => (outcome, fs1)
  | none => download env fs1 url file_path sha256

/-- A stand-in digest for the examples: 32 bytes, each the number of bytes fed. -/
def exampleDigest : List UInt8 → List UInt8 := fun data =>
  List.replicate 32 data.length.toUInt8

/-- Collaborators for the examples: every url names `file.bin`, the data root is
`/data`, the transfer ends with the code `res` after delivering `payload`. -/
def exampleEnv (res : Nat) (payload : List UInt8) : Env :=
  { GetFileNameWithoutDirectory := fun _ => "file.bin",
    GetFileParentDirectory := fun _ => "/data",
    LocateDataRoot := "/data",
    MakeDirectoryHierarchy := fun fs dir =>
      { fs with DirectoryExists := fun p => if p = dir then true else fs.DirectoryExists p },
    LogErrorThrows := true,
    SHA256 := exampleDigest,
    curl_easy_init := true,
    fopen := fun _ _ => true,
    curl_easy_perform := fun _ => (res, payload) }

/-- Collaborators for the examples that differ from `exampleEnv` in one point:
`fopen(file_path, "wb")` fails (returns null), as it does when the directory could not
be created or is not writable. -/
def unwritableEnv (res : Nat) (payload : List UInt8) : Env :=
  { exampleEnv res payload with fopen := fun _ _ => false }

/-- The characters `std::hex` prints. -/
def hexDigits : List Char := "0123456789abcdef".toList

/-- An empty file system. -/
def emptyFileSystem : FileSystem :=
  { DirectoryExists := fun _ => false, FileExists := fun _ => false, content := fun _ => none }

end open3d.data

namespace open3d.visualization.webrtc_server

/-- A statement of `Decoded` that reads the clock, acts on the outside or stores into
a pacing member. -/
inductive Stmt where
  /-- A read of `std::chrono::high_resolution_clock::now()` that yields `count`. -/
  | now (count : Int)
  /-- The call `std::this_thread::sleep_for(std::chrono::milliseconds(ms))`. -/
  | sleep_for (ms : Int)
  /-- The call `broadcaster_.OnFrame(frame)`. -/
  | OnFrame (frame : VideoFrame)
  /-- The assignment `previmagets_ = value`. -/
  | store_previmagets (value : Int)
  /-- The assignment `prevts_ = value`. -/
  | store_prevts (value : Int)
  deriving DecidableEq, Repr

/-- The event a statement causes outside the pipeline, if any. -/
def Stmt.event? : Stmt → Option Event
  | .sleep_for ms => some (Event.sleep_for ms)
  | .OnFrame frame => some (Event.OnFrame frame)
  | _ => none

/-- The effect of a statement on the members. -/
def Stmt.apply (s : VideoDecoder) : Stmt → VideoDecoder
  | .store_previmagets value => { s with previmagets_ := value }
  | .store_prevts value => { s with prevts_ := value }
  | _ => s

/-- The statements `Decoded(decodedImage)` executes, in the order of the source: the
clock read into `ts`, the block under `// Waiting.`, the forward to the sink, the
assignment of `previmagets_`, the second clock read and the assignment of its
millisecond value to `prevts_`. -/
def DecodedProgram (s : VideoDecoder) (decodedImage : VideoFrame) (clock1 clock2 : Int) :
    List Stmt :=
  let ts := nowMs clock1
  [Stmt.now clock1] ++
  (if s.wait_ && (s.prevts_ != 0) then
    if decide (delayms s decodedImage ts > 0) && decide (delayms s decodedImage ts < 1000) then
      [Stmt.sleep_for (delayms s decodedImage ts)]
    else []
  else []) ++
  [Stmt.OnFrame decodedImage,
   Stmt.store_previmagets (decodedImage.timestamp : Int),
   Stmt.now clock2,
   Stmt.store_prevts (nowMs clock2)]

/-! # Theorems -/

/-! ## Machine integers -/

theorem toInt64_of_inInt64 {n : Int} (h : InInt64 n) : toInt64 n = n := by
  unfold InInt64 at h
  unfold toInt64
  omega

theorem toInt64_inInt64 (n : Int) : InInt64 (toInt64 n) := by
  unfold InInt64 toInt64
  omega

theorem tdiv_thousand_abs (a b : Int) (h1 : -(1000 * b) ≤ a) (h2 : a ≤ 1000 * b) :
    -b ≤ Int.tdiv a 1000 ∧ Int.tdiv a 1000 ≤ b := by
  rcases Int.lt_or_le a 0 with ha | ha
  · have e : a = -(-a) := by omega
    rw [e, Int.neg_tdiv, Int.tdiv_eq_ediv (by omega) (by decide)]
    omega
  · rw [Int.tdiv_eq_ediv ha (by decide)]
    omega

/-- A millisecond clock reading stays far inside the 64-bit range. -/
theorem nowMs_bounds (count : Int) :
    -9223372036855 ≤ nowMs count ∧ nowMs count ≤ 9223372036855 := by
  have h := toInt64_inInt64 count
  unfold InInt64 at h
  unfold nowMs
  have h1 := tdiv_thousand_abs (toInt64 count) 9223372036854776 (by omega) (by omega)
  exact tdiv_thousand_abs _ 9223372036855 (by omega) (by omega)

/-! ## Playback pacer -/

theorem timestamp_lt (f : VideoFrame) : (f.timestamp : Int) < 2 ^ 32 ∧ 0 ≤ (f.timestamp : Int) := by
  unfold VideoFrame.timestamp toUInt32
  omega

theorem PacingInv_new (wait : Bool) : PacingInv (VideoDecoder.new wait) := by
  unfold PacingInv VideoDecoder.new
  simp

theorem PacingInv_Decoded (s : VideoDecoder) (f : VideoFrame) (c1 c2 : Int) :
    PacingInv (Decoded s f c1 c2).1 := by
  have h1 := timestamp_lt f
  have h2 := nowMs_bounds c2
  unfold PacingInv Decoded
  simp only
  omega

/-- Under the invariant the 64-bit computation of `delayms` does not overflow. -/
theorem delayms_eq (s : VideoDecoder) (f : VideoFrame) (c1 : Int) (h : PacingInv s) :
    delayms s f (nowMs c1) =
      ((f.timestamp : Int) - s.previmagets_) - (nowMs c1 - s.prevts_) := by
  have h1 := timestamp_lt f
  have h2 := nowMs_bounds c1
  unfold PacingInv at h
  unfold delayms
  simp only
  rw [toInt64_of_inInt64 (n := (f.timestamp : Int) - s.previmagets_) (by unfold InInt64; omega),
      toInt64_of_inInt64 (n := nowMs c1 - s.prevts_) (by unfold InInt64; omega),
      toInt64_of_inInt64 (by unfold InInt64; omega)]

theorem sleptMs_append (es es' : List Event) : sleptMs (es ++ es') = sleptMs es + sleptMs es' := by
  induction es with
  | nil => simp [sleptMs]
  | cons e es ih => cases e <;> simp [sleptMs, ih, add_assoc]

theorem sinkFrames_append (es es' : List Event) :
    sinkFrames (es ++ es') = sinkFrames es ++ sinkFrames es' := by
  induction es with
  | nil => simp [sinkFrames]
  | cons e es ih => cases e <;> simp [sinkFrames, ih]

/-- The sleep of one call of `Decoded`, in terms of the code's own `delayms`. -/
theorem sleptMs_Decoded (s : VideoDecoder) (f : VideoFrame) (c1 c2 : Int) :
    sleptMs (Decoded s f c1 c2).2.1 =
      if s.wait_ = true ∧ s.prevts_ ≠ 0 ∧ 0 < delayms s f (nowMs c1) ∧
          delayms s f (nowMs c1) < 1000 then delayms s f (nowMs c1) else 0 := by
  unfold Decoded waiting
  simp only [sleptMs_append]
  by_cases hw : s.wait_ = true <;> by_cases hp : s.prevts_ = 0 <;>
    by_cases h0 : 0 < delayms s f (nowMs c1) <;>
    by_cases h1 : delayms s f (nowMs c1) < 1000 <;>
    simp [hw, hp, h0, h1, sleptMs]

/-- C1. Pacing rule of `Decoded`: with
`deficit = (source timestamp - previmagets_) - (now - prevts_)`, the call sleeps exactly
`deficit` ms when `wait_` is set, `prevts_ != 0` and `0 < deficit < 1000`, and 0 ms in
every other case; the sleep lies in `[0, 999]`.  With source delta 33 and decode delta 10
it sleeps 23 ms, with 33 and 50 it sleeps 0 ms, with a deficit of 5000 it sleeps 0 ms. -/
theorem Decoded_pacing_rule (s : VideoDecoder) (f : VideoFrame) (c1 c2 : Int)
    (h : PacingInv s) :
    (s.wait_ = true → s.prevts_ ≠ 0 →
      0 < ((f.timestamp : Int) - s.previmagets_) - (nowMs c1 - s.prevts_) →
      ((f.timestamp : Int) - s.previmagets_) - (nowMs c1 - s.prevts_) < 1000 →
      sleptMs (Decoded s f c1 c2).2.1 =
        ((f.timestamp : Int) - s.previmagets_) - (nowMs c1 - s.prevts_)) ∧
    (s.wait_ = false ∨ s.prevts_ = 0 ∨
      ((f.timestamp : Int) - s.previmagets_) - (nowMs c1 - s.prevts_) ≤ 0 ∨
      1000 ≤ ((f.timestamp : Int) - s.previmagets_) - (nowMs c1 - s.prevts_) →
      sleptMs (Decoded s f c1 c2).2.1 = 0) ∧
    (0 ≤ sleptMs (Decoded s f c1 c2).2.1 ∧ sleptMs (Decoded s f c1 c2).2.1 ≤ 999) ∧
    (s.wait_ = true → s.prevts_ ≠ 0 → (f.timestamp : Int) - s.previmagets_ = 33 →
      nowMs c1 - s.prevts_ = 10 → sleptMs (Decoded s f c1 c2).2.1 = 23) ∧
    (s.wait_ = true → s.prevts_ ≠ 0 → (f.timestamp : Int) - s.previmagets_ = 33 →
      nowMs c1 - s.prevts_ = 50 → sleptMs (Decoded s f c1 c2).2.1 = 0) ∧
    (((f.timestamp : Int) - s.previmagets_) - (nowMs c1 - s.prevts_) = 5000 →
      sleptMs (Decoded s f c1 c2).2.1 = 0) := by
  rw [sleptMs_Decoded, delayms_eq s f c1 h]
  refine ⟨?_, ?_, ?_, ?_, ?_, ?_⟩
  · intro hw hp h0 h1
    rw [if_pos ⟨hw, hp, h0, h1⟩]
  · intro hc
    rw [if_neg]
    rintro ⟨hw, hp, h0, h1⟩
    rcases hc with hc | hc | hc | hc
    · rw [hw] at hc; exact Bool.noConfusion hc
    · exact hp hc
    · omega
    · omega
  · split
    · omega
    · omega
  · intro hw hp hs hd
    rw [if_pos ⟨hw, hp, by omega, by omega⟩]
    omega
  · intro hw hp hs hd
    rw [if_neg]
    rintro ⟨_, _, h0, _⟩
    omega
  · intro h5
    rw [if_neg]
    rintro ⟨_, _, _, h1⟩
    omega

/-- An instance of the pacing rule: frames 33 ms apart at the source, decoded 10 ms
apart, are spaced by a sleep of 23 ms. -/
theorem Decoded_pacing_rule_witness :
    PacingInv { VideoDecoder.new true with previmagets_ := 1000, prevts_ := 5000 } ∧
    sleptMs (Decoded { VideoDecoder.new true with previmagets_ := 1000, prevts_ := 5000 }
      { timestamp_rtp_ := 1033, ntp_time_ms_ := 0, buffer := 7 } 5010000000 5033000000).2.1
      = 23 :=
  ⟨by decide,
   (Decoded_pacing_rule { VideoDecoder.new true with previmagets_ := 1000, prevts_ := 5000 }
      { timestamp_rtp_ := 1033, ntp_time_ms_ := 0, buffer := 7 } 5010000000 5033000000
      (by decide)).2.2.2.1 rfl (by decide) (by decide) (by decide)⟩

/-- C3. Every decoded frame is forwarded: whatever the pacing state and the clock, one
call of `Decoded` calls `OnFrame` exactly once, with the decoded frame, as its last
action; anything before it is a pacing sleep.  It returns 1. -/
theorem Decoded_forwards_once (s : VideoDecoder) (f : VideoFrame) (c1 c2 : Int) :
    sinkFrames (Decoded s f c1 c2).2.1 = [f] ∧
    (∃ sleeps : List Event, (Decoded s f c1 c2).2.1 = sleeps ++ [Event.OnFrame f] ∧
      sinkFrames sleeps = [] ∧ sleeps.length ≤ 1) ∧
    (Decoded s f c1 c2).2.2 = 1 := by
  refine ⟨?_, ⟨waiting s f (nowMs c1), rfl, ?_, ?_⟩, rfl⟩
  · unfold Decoded waiting
    simp only [sinkFrames_append]
    split <;> [split; skip] <;> simp [sinkFrames]
  · unfold waiting
    split <;> [split; skip] <;> simp [sinkFrames]
  · unfold waiting
    split <;> [split; skip] <;> simp

/-! ## Codec session -/

theorem initAndRegister_decoder (w : World) (c : Option VideoCodecType) :
    (initAndRegister w c).vd = w.vd ∧ (initAndRegister w c).nextId = w.nextId ∧
    liveIds (initAndRegister w c) = liveIds w := by
  unfold initAndRegister liveIds
  cases hd : w.vd.decoder_ with
  | none => simp
  | some d =>
    simp only [List.map_map, true_and]
    apply List.map_congr_left
    intro o _
    by_cases ho : o.id = d <;> simp [ho]

theorem SessionInv_initAndRegister (w : World) (c : Option VideoCodecType)
    (h : SessionInv w) : SessionInv (initAndRegister w c) := by
  obtain ⟨h1, h2, h3⟩ := initAndRegister_decoder w c
  unfold SessionInv at *
  rw [h1, h2, h3]
  exact h

theorem SessionInv_new (wait : Bool) : SessionInv (World.new wait) := by
  unfold SessionInv liveIds World.new VideoDecoder.new
  simp

theorem liveIds_assignDecoder_none (w : World) (h : SessionInv w) :
    liveIds (assignDecoder w none) = [] := by
  obtain ⟨h1, h2⟩ := h
  unfold liveIds at *
  unfold assignDecoder
  cases hd : w.vd.decoder_ with
  | none => simpa [hd] using h1
  | some d =>
    rw [hd] at h1
    simp only [Option.toList] at h1
    match hh : w.heap, h1 with
    | [o], h1 =>
      simp only [List.map_cons, List.map_nil, List.cons.injEq, and_true] at h1
      simp [h1]

/-- Creating an instance and assigning it to `decoder_` leaves exactly that instance. -/
theorem assign_created (yields : String → Bool) (w : World) (format : String)
    (h : SessionInv w) :
    SessionInv (assignDecoder (CreateVideoDecoder yields w format).1
      (CreateVideoDecoder yields w format).2) ∧
    (assignDecoder (CreateVideoDecoder yields w format).1
      (CreateVideoDecoder yields w format).2).vd.decoder_ =
        (if yields format then some w.nextId else none) := by
  obtain ⟨h1, h2⟩ := h
  unfold SessionInv liveIds at *
  unfold CreateVideoDecoder assignDecoder
  by_cases hy : yields format = true
  · simp only [hy, if_true]
    cases hd : w.vd.decoder_ with
    | none =>
      rw [hd] at h1
      simp only [Option.toList, List.map_eq_nil_iff] at h1
      simp [h1]
    | some d =>
      rw [hd] at h1
      simp only [Option.toList] at h1
      match hh : w.heap, h1 with
      | [o], h1 =>
        simp only [List.map_cons, List.map_nil, List.cons.injEq, and_true] at h1
        have hlt : d < w.nextId := by
          apply h2
          rw [hh]
          simp [h1]
        have hne : w.nextId ≠ d := by omega
        simp [h1, hne]
  · simp only [hy, Bool.false_eq_true, if_false]
    cases hd : w.vd.decoder_ with
    | none =>
      rw [hd] at h1
      simp only [Option.toList, List.map_eq_nil_iff] at h1
      simp [h1]
    | some d =>
      rw [hd] at h1
      simp only [Option.toList] at h1
      match hh : w.heap, h1 with
      | [o], h1 =>
        simp only [List.map_cons, List.map_nil, List.cons.injEq, and_true] at h1
        simp [h1]

theorem SessionInv_createDecoder (yields : String → Bool) (w : World) (codec : String)
    (h : SessionInv w) : SessionInv (createDecoder yields w codec) := by
  unfold createDecoder
  split
  · exact SessionInv_initAndRegister _ _ (assign_created yields w _ h).1
  · split
    · exact SessionInv_initAndRegister _ _ (assign_created yields w _ h).1
    · exact SessionInv_initAndRegister _ _ h

theorem SessionInv_destroyDecoder (w : World) (h : SessionInv w) :
    SessionInv (destroyDecoder w) := by
  have h0 := liveIds_assignDecoder_none w h
  unfold destroyDecoder
  unfold SessionInv
  rw [h0]
  simp [assignDecoder]

theorem SessionInv_runSession (yields : String → Bool) (calls : List SessionCall)
    (w : World) (h : SessionInv w) : SessionInv (runSession yields w calls) := by
  unfold runSession
  induction calls generalizing w with
  | nil => exact h
  | cons c cs ih =>
    simp only [List.foldl_cons]
    apply ih
    cases c with
    | createDecoder codec => exact SessionInv_createDecoder yields w codec h
    | destroyDecoder => exact SessionInv_destroyDecoder w h

/-- C8 as stated fails: on a pipeline that already holds an H264 decoder,
`createDecoder("AV1")` leaves `hasDecoder()` true. -/
theorem createDecoder_unsupported_counterexample :
    ¬ (∀ (yields : String → Bool) (w : World) (codec : String),
        codec ≠ "H264" → codec ≠ "VP9" → hasDecoder (createDecoder yields w codec) = false) := by
  intro h
  have h1 := h (fun _ => true) (createDecoder (fun _ => true) (World.new false) "H264") "AV1"
    (by decide) (by decide)
  revert h1
  decide

/-- C8, amended. For a codec name other than "H264" and "VP9", `createDecoder` leaves
`decoder_` as it was and creates no instance: `hasDecoder()` afterwards equals
`hasDecoder()` before, so it is false when the pipeline held no decoder (as a freshly
constructed one does), and then nothing at all changes. -/
theorem createDecoder_unsupported (yields : String → Bool) (w : World) (codec : String)
    (h264 : codec ≠ "H264") (hvp9 : codec ≠ "VP9") :
    (createDecoder yields w codec).vd = w.vd ∧
    hasDecoder (createDecoder yields w codec) = hasDecoder w ∧
    liveIds (createDecoder yields w codec) = liveIds w ∧
    (hasDecoder w = false → hasDecoder (createDecoder yields w codec) = false ∧
      createDecoder yields w codec = w) ∧
    hasDecoder (createDecoder yields (World.new w.vd.wait_) codec) = false := by
  have e : ∀ w : World, createDecoder yields w codec = initAndRegister w none := by
    intro w
    unfold createDecoder
    rw [if_neg h264, if_neg hvp9]
  obtain ⟨h1, _, h3⟩ := initAndRegister_decoder w none
  rw [e, e]
  refine ⟨h1, ?_, h3, ?_, ?_⟩
  · unfold hasDecoder
    rw [h1]
  · intro hn
    unfold hasDecoder at *
    rw [h1]
    refine ⟨hn, ?_⟩
    unfold initAndRegister
    cases hd : w.vd.decoder_ with
    | none => rfl
    | some d => rw [hd] at hn; exact Bool.noConfusion hn
  · unfold hasDecoder
    rw [(initAndRegister_decoder _ none).1]
    rfl

/-- An instance of the amended C8: "AV1" on a fresh pipeline leaves no decoder. -/
theorem createDecoder_unsupported_witness :
    hasDecoder (createDecoder (fun _ => true) (World.new false) "AV1") = false :=
  ((createDecoder_unsupported (fun _ => true) (World.new false) "AV1"
      (by decide) (by decide)).2.2.2.1 rfl).1

/-- C9. Single live decoder: with a factory that yields a decoder for H264 and VP9,
after any sequence of `createDecoder` / `destroyDecoder` calls on a new pipeline at most
one decoder instance is alive, it is the one `decoder_` owns, and `hasDecoder()` is true
exactly when one is alive.  From such a state `createDecoder("H264")` or
`createDecoder("VP9")` ends with exactly one live instance, a new one (the instance held
before is destroyed), and `hasDecoder()` true; `destroyDecoder()` ends with none, and
changes nothing when there was none. -/
theorem single_live_decoder (yields : String → Bool)
    (hyields : yields kH264CodecName = true ∧ yields kVp9CodecName = true)
    (wait : Bool) (calls : List SessionCall) :
    (liveIds (runSession yields (World.new wait) calls)).length ≤ 1 ∧
    liveIds (runSession yields (World.new wait) calls) =
      (runSession yields (World.new wait) calls).vd.decoder_.toList ∧
    (hasDecoder (runSession yields (World.new wait) calls) = true ↔
      (liveIds (runSession yields (World.new wait) calls)).length = 1) ∧
    (∀ codec : String, codec = "H264" ∨ codec = "VP9" →
      hasDecoder (createDecoder yields (runSession yields (World.new wait) calls) codec) = true ∧
      liveIds (createDecoder yields (runSession yields (World.new wait) calls) codec) =
        [(runSession yields (World.new wait) calls).nextId] ∧
      (createDecoder yields (runSession yields (World.new wait) calls) codec).vd.decoder_ =
        some (runSession yields (World.new wait) calls).nextId ∧
      ∀ old ∈ liveIds (runSession yields (World.new wait) calls),
        old ∉ liveIds (createDecoder yields (runSession yields (World.new wait) calls) codec)) ∧
    (hasDecoder (destroyDecoder (runSession yields (World.new wait) calls)) = false ∧
      liveIds (destroyDecoder (runSession yields (World.new wait) calls)) = []) ∧
    (hasDecoder (runSession yields (World.new wait) calls) = false →
      destroyDecoder (runSession yields (World.new wait) calls) =
        runSession yields (World.new wait) calls) := by
  have hinv := SessionInv_runSession yields calls (World.new wait) (SessionInv_new wait)
  generalize runSession yields (World.new wait) calls = w at hinv
  have hlive := hinv.1
  have hcreate : ∀ (format : String) (c : Option VideoCodecType), yields format = true →
      hasDecoder (initAndRegister (assignDecoder (CreateVideoDecoder yields w format).1
        (CreateVideoDecoder yields w format).2) c) = true ∧
      liveIds (initAndRegister (assignDecoder (CreateVideoDecoder yields w format).1
        (CreateVideoDecoder yields w format).2) c) = [w.nextId] ∧
      (initAndRegister (assignDecoder (CreateVideoDecoder yields w format).1
        (CreateVideoDecoder yields w format).2) c).vd.decoder_ = some w.nextId ∧
      ∀ old ∈ liveIds w, old ∉ liveIds (initAndRegister (assignDecoder
        (CreateVideoDecoder yields w format).1 (CreateVideoDecoder yields w format).2) c) := by
    intro format c hy
    obtain ⟨hi, hd⟩ := assign_created yields w format hinv
    obtain ⟨h1, _, h3⟩ := initAndRegister_decoder (assignDecoder
      (CreateVideoDecoder yields w format).1 (CreateVideoDecoder yields w format).2) c
    rw [hy, if_pos rfl] at hd
    have hl := hi.1
    rw [hd] at hl
    unfold hasDecoder
    rw [h1, h3, hd, hl]
    refine ⟨rfl, rfl, rfl, ?_⟩
    intro old hold
    have := hinv.2 old hold
    simp only [Option.toList, List.mem_singleton]
    omega
  refine ⟨?_, hlive, ?_, ?_, ?_, ?_⟩
  · rw [hlive]
    cases w.vd.decoder_ <;> simp [Option.toList]
  · unfold hasDecoder
    rw [hlive]
    cases w.vd.decoder_ <;> simp [Option.toList]
  · intro codec hc
    rcases hc with hc | hc
    · subst hc
      unfold createDecoder
      rw [if_pos rfl]
      exact hcreate kH264CodecName _ hyields.1
    · subst hc
      unfold createDecoder
      rw [if_neg (by decide), if_pos rfl]
      exact hcreate kVp9CodecName _ hyields.2
  · refine ⟨?_, liveIds_assignDecoder_none w hinv⟩
    unfold hasDecoder destroyDecoder assignDecoder
    rfl
  · intro hn
    unfold hasDecoder at hn
    unfold destroyDecoder assignDecoder
    cases hd : w.vd.decoder_ with
    | none =>
      cases w with
      | mk vd heap nextId pushed popped submitted events =>
        cases vd
        simp only at hd
        subst hd
        rfl
    | some d => rw [hd] at hn; exact Bool.noConfusion hn

/-- An instance of C9: switching from H264 to VP9 ends with one live decoder, the new
one. -/
theorem single_live_decoder_witness :
    liveIds (createDecoder (fun _ => true)
      (runSession (fun _ => true) (World.new false) [SessionCall.createDecoder "H264"]) "VP9")
      = [1] ∧
    hasDecoder (createDecoder (fun _ => true)
      (runSession (fun _ => true) (World.new false) [SessionCall.createDecoder "H264"]) "VP9")
      = true :=
  ⟨((single_live_decoder (fun _ => true) ⟨rfl, rfl⟩ false
      [SessionCall.createDecoder "H264"]).2.2.2.1 "VP9" (Or.inr rfl)).2.1,
   ((single_live_decoder (fun _ => true) ⟨rfl, rfl⟩ false
      [SessionCall.createDecoder "H264"]).2.2.2.1 "VP9" (Or.inr rfl)).1⟩

/-! ## Reachable pacing states -/

theorem PacingInv_runCallbacks (cbs : List (VideoFrame × Int × Int)) (w : World)
    (h : PacingInv w.vd) : PacingInv (runCallbacks w cbs).vd := by
  induction cbs generalizing w with
  | nil => exact h
  | cons cb cbs ih =>
    obtain ⟨f, c1, c2⟩ := cb
    unfold runCallbacks
    exact ih _ (PacingInv_Decoded w.vd f c1 c2)

theorem PacingInv_step (w : World) (a : Action) (h : PacingInv w.vd) :
    PacingInv (step w a).vd := by
  unfold step
  split
  · exact h
  · cases a with
    | PostFrame content ts frame_type => exact h
    | Start =>
      simp only [Start]
      split <;> exact h
    | stopSetFlag => exact h
    | stopPush => exact h
    | stopJoin =>
      simp only [Stop.join]
      split <;> exact h
    | worker dec =>
      simp only [DecoderThread.step]
      split
      · split <;> exact h
      · split
        · exact h
        · unfold processFrame
          split
          · exact h
          · split
            · split
              · exact h
              · dsimp only
                split
                · exact PacingInv_runCallbacks _ _ h
                · exact PacingInv_runCallbacks _ _ h
            · exact h
      · exact h

theorem PacingInv_session (yields : String → Bool) (calls : List SessionCall) (w : World)
    (h : PacingInv w.vd) : PacingInv (runSession yields w calls).vd := by
  unfold runSession
  induction calls generalizing w with
  | nil => exact h
  | cons c cs ih =>
    apply ih
    have hi : ∀ (x : World) (t : Option VideoCodecType), PacingInv x.vd →
        PacingInv (initAndRegister x t).vd := by
      intro x t hx
      rw [(initAndRegister_decoder x t).1]
      exact hx
    have ha : ∀ (x : World) (p : Option Nat), PacingInv x.vd →
        PacingInv (assignDecoder x p).vd := fun _ _ hx => hx
    have hc : ∀ (x : World) (fmt : String), PacingInv x.vd →
        PacingInv (CreateVideoDecoder yields x fmt).1.vd := by
      intro x fmt hx
      unfold CreateVideoDecoder
      split <;> exact hx
    cases c with
    | createDecoder codec =>
      simp only [SessionCall.run, createDecoder]
      split
      · exact hi _ _ (ha _ _ (hc _ _ h))
      · split
        · exact hi _ _ (ha _ _ (hc _ _ h))
        · exact hi _ _ h
    | destroyDecoder => exact h

/-- Every state a pipeline reaches from its construction satisfies `PacingInv`. -/
theorem PacingInv_reachable (yields : String → Bool) (wait : Bool)
    (calls : List SessionCall) (schedule : List Action) :
    PacingInv (run (runSession yields (World.new wait) calls) schedule).vd := by
  have h0 := PacingInv_session yields calls (World.new wait) (PacingInv_new wait)
  generalize runSession yields (World.new wait) calls = w at h0
  unfold run
  induction schedule generalizing w with
  | nil => exact h0
  | cons a rest ih => exact ih _ (PacingInv_step w a h0)

/-! ## Decode worker -/

/-- The callbacks touch the pacing scalars and the event log only. -/
theorem runCallbacks_frame (cbs : List (VideoFrame × Int × Int)) (w : World) :
    (runCallbacks w cbs).control = w.control ∧
    (runCallbacks w cbs).vd.wait_ = w.vd.wait_ ∧
    (runCallbacks w cbs).heap = w.heap ∧
    (runCallbacks w cbs).nextId = w.nextId := by
  induction cbs generalizing w with
  | nil => simp [runCallbacks]
  | cons cb cbs ih =>
    obtain ⟨f, c1, c2⟩ := cb
    unfold runCallbacks
    simp only
    obtain ⟨h1, h2, h3, h4⟩ := ih { w with vd := (Decoded w.vd f c1 c2).1,
                                           events := w.events ++ (Decoded w.vd f c1 c2).2.1 }
    rw [h1, h2, h3, h4]
    simp [World.control, Decoded]

/-- What `processFrame` does to the decoder-independent part, whatever the decoder
answers. -/
theorem processFrame_control (dec : DecodeCall → DecodeOutcome) (w : World) (frame : Frame) :
    (processFrame dec w frame).control =
      if frame.hasPayload then
        match w.vd.decoder_ with
        | none => { w.control with decoder_thread_ := .fault }
        | some _ => { w.control with submitted := w.submitted ++ [decodeCallOf frame] }
      else w.control := by
  unfold processFrame Frame.hasPayload
  cases hc : frame.content_ with
  | none => simp
  | some buf =>
    by_cases hb : buf.length = 0
    · simp [hb]
    · simp only [bne_iff_ne, ne_eq, hb, not_false_eq_true, if_true]
      cases hd : w.vd.decoder_ with
      | none => simp [World.control, hd]
      | some d =>
        simp only
        have h := (runCallbacks_frame (dec (decodeCallOf frame)).callbacks
          { w with submitted := w.submitted ++ [decodeCallOf frame] }).1
        split
        · simp only [World.control] at h ⊢
          rw [Control.mk.injEq] at h ⊢
          simpa using h
        · rw [h]
          simp [World.control]

/-- Whatever the decoder answers, `step` acts on the decoder-independent part of the
world as `Control.step` does. -/
theorem step_control (w : World) (a : Action) : (step w a).control = w.control.step a := by
  unfold step Control.step
  by_cases hf : w.vd.decoder_thread_ = .fault
  · simp [hf, World.control]
  · have hf' : w.control.decoder_thread_ ≠ .fault := hf
    rw [if_neg hf, if_neg hf']
    cases a with
    | PostFrame content ts frame_type => simp [PostFrame, queuePush, World.control]
    | Start =>
      simp only [Start]
      cases ht : w.vd.decoder_thread_ <;> simp_all [World.control]
    | stopSetFlag => simp [Stop.setFlag, World.control]
    | stopPush => simp [Stop.push, queuePush, World.control]
    | stopJoin =>
      simp only [Stop.join]
      cases ht : w.vd.decoder_thread_ <;> simp_all [World.control]
    | worker dec =>
      simp only [DecoderThread.step]
      cases ht : w.vd.decoder_thread_ with
      | loopHead =>
        have : w.control.decoder_thread_ = .loopHead := ht
        simp only [this]
        by_cases hs : w.vd.stop_ = true
        · have : w.control.stop_ = true := hs
          simp [hs, this, World.control]
        · have : ¬ w.control.stop_ = true := hs
          simp [hs, this, World.control]
      | waitPop =>
        have : w.control.decoder_thread_ = .waitPop := ht
        simp only [this]
        cases hq : w.vd.queue_ with
        | nil =>
          have : w.control.queue_ = [] := hq
          simp [this]
        | cons frame rest =>
          have : w.control.queue_ = frame :: rest := hq
          simp only [this]
          rw [processFrame_control]
          by_cases hp : frame.hasPayload = true
          · simp only [hp, if_true]
            cases hd : w.vd.decoder_ with
            | none =>
              have : w.control.decoder_ = none := hd
              simp [this, World.control, hd]
            | some d =>
              have : w.control.decoder_ = some d := hd
              simp [this, World.control, hd]
          · simp [hp, World.control]
      | notStarted =>
        have : w.control.decoder_thread_ = .notStarted := ht
        simp [this]
      | finished =>
        have : w.control.decoder_thread_ = .finished := ht
        simp [this]
      | fault => exact absurd ht hf

theorem run_control (schedule : List Action) (w : World) :
    (run w schedule).control = w.control.run schedule := by
  unfold run Control.run
  induction schedule generalizing w with
  | nil => rfl
  | cons a rest ih =>
    simp only [List.foldl_cons]
    rw [ih, step_control]

theorem Control.step_fault (c : Control) (a : Action) (h : c.decoder_thread_ = .fault) :
    c.step a = c := by
  unfold Control.step
  rw [if_pos h]

theorem Control.run_fault (schedule : List Action) (c : Control)
    (h : c.decoder_thread_ = .fault) : c.run schedule = c := by
  unfold Control.run
  induction schedule with
  | nil => rfl
  | cons a rest ih =>
    simp only [List.foldl_cons]
    rw [Control.step_fault c a h]
    exact ih

theorem Control.step_decoder (c : Control) (a : Action) :
    (c.step a).decoder_ = c.decoder_ := by
  unfold Control.step
  repeat' split
  all_goals rfl

theorem Control.step_pushed (c : Control) (a : Action) (h : c.decoder_thread_ ≠ .fault) :
    (c.step a).pushed = c.pushed ++ enqueuedBy a := by
  unfold Control.step
  rw [if_neg h]
  cases a <;> simp only [enqueuedBy, List.append_nil]
  all_goals repeat' split
  all_goals rfl

/-- The queue discipline: what was enqueued is what was dequeued followed by what is
still queued, and the submissions are the dequeued records with payload, in order. -/
theorem Control.step_fifo (c : Control) (a : Action) (hdec : c.decoder_.isSome = true)
    (hq : c.pushed = c.popped ++ c.queue_)
    (hs : c.submitted = (c.popped.filter Frame.hasPayload).map decodeCallOf) :
    (c.step a).pushed = (c.step a).popped ++ (c.step a).queue_ ∧
    (c.step a).submitted = ((c.step a).popped.filter Frame.hasPayload).map decodeCallOf ∧
    c.popped <+: (c.step a).popped := by
  unfold Control.step
  split
  · exact ⟨hq, hs, List.prefix_refl _⟩
  · cases a with
    | PostFrame content ts frame_type => simp [hq, hs]
    | Start => simp only; split <;> simp [hq, hs]
    | stopSetFlag => simp [hq, hs]
    | stopPush => simp [hq, hs]
    | stopJoin => simp only; split <;> simp [hq, hs]
    | worker dec =>
      simp only
      split
      · split <;> simp [hq, hs]
      · split
        · simp [hq, hs]
        · rename_i frame rest hqq
          rw [hqq] at hq
          by_cases hp : frame.hasPayload = true
          · simp only [hp, if_true]
            cases hd : c.decoder_ with
            | none => rw [hd] at hdec; exact Bool.noConfusion hdec
            | some d => simp [hq, hs, hp, List.filter_append]
          · simp [hq, hs, hp, List.filter_append]
      · simp [hq, hs]

theorem Control.run_fifo (schedule : List Action) (c : Control)
    (hdec : c.decoder_.isSome = true)
    (hq : c.pushed = c.popped ++ c.queue_)
    (hs : c.submitted = (c.popped.filter Frame.hasPayload).map decodeCallOf) :
    (c.run schedule).pushed = (c.run schedule).popped ++ (c.run schedule).queue_ ∧
    (c.run schedule).submitted =
      ((c.run schedule).popped.filter Frame.hasPayload).map decodeCallOf ∧
    c.popped <+: (c.run schedule).popped := by
  unfold Control.run
  induction schedule generalizing c with
  | nil => exact ⟨hq, hs, List.prefix_refl _⟩
  | cons a rest ih =>
    simp only [List.foldl_cons]
    obtain ⟨h1, h2, h3⟩ := Control.step_fifo c a hdec hq hs
    obtain ⟨k1, k2, k3⟩ := ih (c.step a) (by rw [Control.step_decoder]; exact hdec) h1 h2
    exact ⟨k1, k2, List.IsPrefix.trans h3 k3⟩

theorem Control.run_pushed (schedule : List Action) (c : Control) :
    (c.run schedule).pushed <+: c.pushed ++ enqueued schedule ∧
    ((c.run schedule).decoder_thread_ ≠ .fault →
      (c.run schedule).pushed = c.pushed ++ enqueued schedule) := by
  induction schedule generalizing c with
  | nil => simp [Control.run, enqueued]
  | cons a rest ih =>
    by_cases hf : c.decoder_thread_ = .fault
    · rw [Control.run_fault _ c hf]
      exact ⟨List.prefix_append _ _, fun h => absurd hf h⟩
    · have e : c.run (a :: rest) = (c.step a).run rest := by
        simp [Control.run]
      rw [e]
      obtain ⟨h1, h2⟩ := ih (c.step a)
      rw [Control.step_pushed c a hf, List.append_assoc] at h1 h2
      exact ⟨h1, h2⟩

/-- C2. FIFO decode order: on a pipeline that owns a decoder, however the `PostFrame`
calls, the statements of `Stop()`/`Start()` and the worker's steps interleave, the calls
submitted to the decoder are exactly the dequeued records with a non-null, non-empty
payload, once each and in dequeue order: the k-th call carries the buffer and the frame
type of the k-th such record, its timestamp reduced to 32 bits as the image timestamp
and in `int64_t` as the render time, and `missing_frames = false`.  The dequeued records
followed by the queued ones are the enqueued ones in enqueue order, and these are the
records posted by the schedule in posting order.  So no frame is submitted before one
posted earlier. -/
theorem fifo_decode_order (w : World) (schedule : List Action)
    (hdec : hasDecoder w = true)
    (hq : w.pushed = w.popped ++ w.vd.queue_)
    (hs : w.submitted = (w.popped.filter Frame.hasPayload).map decodeCallOf) :
    (run w schedule).submitted =
      ((run w schedule).popped.filter Frame.hasPayload).map decodeCallOf ∧
    (run w schedule).submitted =
      ((run w schedule).popped.filter Frame.hasPayload).map (fun frame =>
        { input_image :=
            { encoded_data_ := frame.content_,
              _frameType := frame.frame_type_,
              timestamp_rtp_ := frame.timestamp_ms_ % 2 ^ 32 },
          missing_frames := false,
          render_time_ms := toInt64 frame.timestamp_ms_ }) ∧
    (run w schedule).submitted.map (fun call => call.input_image.encoded_data_) =
      ((run w schedule).popped.filter Frame.hasPayload).map (fun frame => frame.content_) ∧
    (∀ call ∈ (run w schedule).submitted,
      ∃ buf, call.input_image.encoded_data_ = some buf ∧ buf ≠ []) ∧
    (run w schedule).popped ++ (run w schedule).vd.queue_ = (run w schedule).pushed ∧
    (run w schedule).pushed <+: w.pushed ++ enqueued schedule ∧
    ((run w schedule).vd.decoder_thread_ ≠ .fault →
      (run w schedule).pushed = w.pushed ++ enqueued schedule) ∧
    w.popped <+: (run w schedule).popped := by
  have hc := run_control schedule w
  obtain ⟨h1, h2, h3⟩ := Control.run_fifo schedule w.control hdec hq hs
  obtain ⟨h4, h5⟩ := Control.run_pushed schedule w.control
  rw [← hc] at h1 h2 h3 h4 h5
  have h2' : (run w schedule).submitted =
      ((run w schedule).popped.filter Frame.hasPayload).map decodeCallOf := h2
  refine ⟨h2, h2, ?_, ?_, h1.symm, h4, h5, h3⟩
  · rw [h2', List.map_map]
    rfl
  · intro call hcall
    rw [h2', List.mem_map] at hcall
    obtain ⟨frame, hf, rfl⟩ := hcall
    have hp := (List.mem_filter.mp hf).2
    unfold Frame.hasPayload at hp
    cases hcont : frame.content_ with
    | none => rw [hcont] at hp; exact Bool.noConfusion hp
    | some buf =>
      rw [hcont] at hp
      refine ⟨buf, hcont, ?_⟩
      intro hnil
      rw [hnil] at hp
      exact Bool.noConfusion hp

/-- An instance of C2: three posts, the middle one with an empty buffer; the worker
submits the first and the third, in that order, each with its own buffer, frame type
and timestamp. -/
theorem fifo_decode_order_witness :
    (run h264World
      [.Start, .PostFrame (some [1]) 10 .kVideoFrameKey, .PostFrame (some []) 20 .kVideoFrameDelta,
       .PostFrame (some [2]) 30 .kVideoFrameDelta,
       .worker (echoDecoder 0 0), .worker (echoDecoder 0 0), .worker (echoDecoder 0 0),
       .worker (failingDecoder (-1)), .worker (echoDecoder 0 0),
       .worker (echoDecoder 0 0)]).submitted =
      [{ input_image := { encoded_data_ := some [1], _frameType := some .kVideoFrameKey,
                          timestamp_rtp_ := 10 },
         missing_frames := false, render_time_ms := 10 },
       { input_image := { encoded_data_ := some [2], _frameType := some .kVideoFrameDelta,
                          timestamp_rtp_ := 30 },
         missing_frames := false, render_time_ms := 30 }] :=
  (fifo_decode_order h264World
      [.Start, .PostFrame (some [1]) 10 .kVideoFrameKey, .PostFrame (some []) 20 .kVideoFrameDelta,
       .PostFrame (some [2]) 30 .kVideoFrameDelta,
       .worker (echoDecoder 0 0), .worker (echoDecoder 0 0), .worker (echoDecoder 0 0),
       .worker (failingDecoder (-1)), .worker (echoDecoder 0 0),
       .worker (echoDecoder 0 0)] (by decide) (by decide) (by decide)).2.1.trans (by decide)


/-- Once `stop_` is set, an action other than `Start` keeps it set and lets the worker
dequeue (and submit) only within its budget. -/
theorem Control.step_stopped (c : Control) (a : Action) (hstop : c.stop_ = true)
    (ha : a ≠ Action.Start) :
    (c.step a).stop_ = true ∧
    (c.step a).popped.length + (c.step a).budget ≤ c.popped.length + c.budget ∧
    (c.step a).submitted.length + (c.step a).budget ≤ c.submitted.length + c.budget := by
  unfold Control.step
  split
  · exact ⟨hstop, le_refl _, le_refl _⟩
  · cases a with
    | Start => exact absurd rfl ha
    | PostFrame content ts frame_type => simp [hstop, Control.budget]
    | stopSetFlag => simp [Control.budget]
    | stopPush => simp [hstop, Control.budget]
    | stopJoin =>
      simp only
      split <;> simp_all [Control.budget]
    | worker dec =>
      simp only
      split
      · simp_all [Control.budget]
      · split
        · simp [hstop]
        · split
          · split <;> simp_all [Control.budget]
          · simp_all [Control.budget]
      · simp [hstop]

theorem Control.run_stopped (schedule : List Action) (c : Control) (hstop : c.stop_ = true)
    (hs : ∀ a ∈ schedule, a ≠ Action.Start) :
    (c.run schedule).stop_ = true ∧
    (c.run schedule).popped.length + (c.run schedule).budget ≤ c.popped.length + c.budget ∧
    (c.run schedule).submitted.length + (c.run schedule).budget ≤
      c.submitted.length + c.budget := by
  unfold Control.run
  induction schedule generalizing c with
  | nil => exact ⟨hstop, le_refl _, le_refl _⟩
  | cons a rest ih =>
    simp only [List.foldl_cons]
    obtain ⟨h1, h2, h3⟩ := Control.step_stopped c a hstop (hs a (List.mem_cons_self _ _))
    obtain ⟨k1, k2, k3⟩ := ih (c.step a) h1 (fun b hb => hs b (List.mem_cons_of_mem _ hb))
    exact ⟨k1, le_trans k2 h2, le_trans k3 h3⟩

/-- The rest of `Stop()` when the worker is at the loop test. -/
theorem Control.stop_at_loopHead (c : Control) (d1 : DecodeCall → DecodeOutcome)
    (hc : c.decoder_thread_ = .loopHead) (hst : c.stop_ = true) :
    c.run [.stopPush, .worker d1, .stopJoin] =
      { c with decoder_thread_ := .notStarted, queue_ := c.queue_ ++ [Frame.default],
               pushed := c.pushed ++ [Frame.default] } := by
  simp [Control.run, Control.step, hc, hst]

/-- The rest of `Stop()` when the worker is past the loop test. -/
theorem Control.stop_at_waitPop (c : Control) (d1 d2 : DecodeCall → DecodeOutcome)
    (hc : c.decoder_thread_ = .waitPop) (hst : c.stop_ = true)
    (hd : c.decoder_.isSome = true) :
    (c.run [.stopPush, .worker d1, .worker d2, .stopJoin]).decoder_thread_ = .notStarted ∧
    (c.run [.stopPush, .worker d1, .worker d2, .stopJoin]).popped =
      c.popped ++ (c.queue_ ++ [Frame.default]).take 1 ∧
    (c.run [.stopPush, .worker d1, .worker d2, .stopJoin]).queue_ =
      (c.queue_ ++ [Frame.default]).drop 1 := by
  obtain ⟨q, t, st, dcd, pu, po, su⟩ := c
  simp only at hc hst hd
  subst hc hst
  cases dcd with
  | none => exact Bool.noConfusion hd
  | some d =>
    cases q with
    | nil => simp [Control.run, Control.step, Frame.hasPayload, Frame.default]
    | cons frame rest =>
      by_cases hp : frame.hasPayload = true <;>
        simp [Control.run, Control.step, hp]

/-- C4 as stated fails: `Start()`, two frames posted, the worker decodes the first, then
`Stop()` runs with the second still queued ahead of the sentinel.  `Stop()` returns (the
thread is joined) with the second frame still in the queue and never submitted. -/
theorem stop_drain_counterexample :
    (run h264World
      [.Start, .PostFrame (some [1]) 10 .kVideoFrameKey, .PostFrame (some [2]) 20 .kVideoFrameDelta,
       .worker (echoDecoder 0 0), .worker (echoDecoder 0 0),
       .stopSetFlag, .stopPush]).vd.queue_ =
      [Frame.mk3 (some [2]) 20 .kVideoFrameDelta, Frame.default] ∧
    (Frame.mk3 (some [2]) 20 .kVideoFrameDelta).hasPayload = true ∧
    (run h264World
      [.Start, .PostFrame (some [1]) 10 .kVideoFrameKey, .PostFrame (some [2]) 20 .kVideoFrameDelta,
       .worker (echoDecoder 0 0), .worker (echoDecoder 0 0),
       .stopSetFlag, .stopPush,
       .worker (echoDecoder 0 0), .stopJoin]).vd.decoder_thread_ = .notStarted ∧
    (run h264World
      [.Start, .PostFrame (some [1]) 10 .kVideoFrameKey, .PostFrame (some [2]) 20 .kVideoFrameDelta,
       .worker (echoDecoder 0 0), .worker (echoDecoder 0 0),
       .stopSetFlag, .stopPush,
       .worker (echoDecoder 0 0), .stopJoin]).submitted =
      [decodeCallOf (Frame.mk3 (some [1]) 10 .kVideoFrameKey)] ∧
    (run h264World
      [.Start, .PostFrame (some [1]) 10 .kVideoFrameKey, .PostFrame (some [2]) 20 .kVideoFrameDelta,
       .worker (echoDecoder 0 0), .worker (echoDecoder 0 0),
       .stopSetFlag, .stopPush,
       .worker (echoDecoder 0 0), .stopJoin]).vd.queue_ =
      [Frame.mk3 (some [2]) 20 .kVideoFrameDelta, Frame.default] := by
  decide

/-- C4, amended. Once `Stop()` has set the stop flag, and as long as `Start()` is not
called again, the worker dequeues at most one more record (one only if it had already
passed the loop test) and submits at most one more frame, however the schedule goes on.
When `Stop()` then runs to completion, the worker exits and `Stop()` returns: a worker
that was at the loop test dequeues nothing, a worker that was past it dequeues the front
record only; the other queued frames stay in the queue, followed by the sentinel. -/
theorem stop_does_not_drain (w : World) (schedule : List Action)
    (d1 d2 : DecodeCall → DecodeOutcome)
    (hstop : w.vd.stop_ = true) (hs : ∀ a ∈ schedule, a ≠ Action.Start) :
    (run w schedule).popped.length ≤
      w.popped.length + (if w.vd.decoder_thread_ = .waitPop then 1 else 0) ∧
    (run w schedule).submitted.length ≤
      w.submitted.length + (if w.vd.decoder_thread_ = .waitPop then 1 else 0) ∧
    (w.vd.decoder_thread_ = .loopHead →
      (run w [.stopPush, .worker d1, .stopJoin]).vd.decoder_thread_ = .notStarted ∧
      (run w [.stopPush, .worker d1, .stopJoin]).popped = w.popped ∧
      (run w [.stopPush, .worker d1, .stopJoin]).submitted = w.submitted ∧
      (run w [.stopPush, .worker d1, .stopJoin]).vd.queue_ = w.vd.queue_ ++ [Frame.default]) ∧
    (w.vd.decoder_thread_ = .waitPop → hasDecoder w = true →
      (run w [.stopPush, .worker d1, .worker d2, .stopJoin]).vd.decoder_thread_ = .notStarted ∧
      (run w [.stopPush, .worker d1, .worker d2, .stopJoin]).popped =
        w.popped ++ (w.vd.queue_ ++ [Frame.default]).take 1 ∧
      (run w [.stopPush, .worker d1, .worker d2, .stopJoin]).vd.queue_ =
        (w.vd.queue_ ++ [Frame.default]).drop 1) := by
  obtain ⟨_, h2, h3⟩ := Control.run_stopped schedule w.control hstop hs
  rw [← run_control] at h2 h3
  refine ⟨?_, ?_, ?_, ?_⟩
  · have : (run w schedule).popped.length ≤ w.control.popped.length + w.control.budget := by
      have := Nat.le_add_right (run w schedule).control.popped.length
        (run w schedule).control.budget
      exact le_trans this h2
    exact this
  · have : (run w schedule).submitted.length ≤
        w.control.submitted.length + w.control.budget := by
      have := Nat.le_add_right (run w schedule).control.submitted.length
        (run w schedule).control.budget
      exact le_trans this h3
    exact this
  · intro ht
    have h := Control.stop_at_loopHead w.control d1 ht hstop
    rw [← run_control] at h
    exact ⟨congrArg Control.decoder_thread_ h, congrArg Control.popped h,
      congrArg Control.submitted h, congrArg Control.queue_ h⟩
  · intro ht hd
    have h := Control.stop_at_waitPop w.control d1 d2 ht hstop hd
    rw [← run_control] at h
    exact h

/-- An instance of the amended C4: the worker has decoded one frame and is back at the
loop test when `Stop()` sets the flag; whatever follows, it dequeues nothing more. -/
theorem stop_does_not_drain_witness :
    (run (run h264World
        [.Start, .PostFrame (some [1]) 10 .kVideoFrameKey,
         .PostFrame (some [2]) 20 .kVideoFrameDelta,
         .worker (echoDecoder 0 0), .worker (echoDecoder 0 0), .stopSetFlag])
      [.stopPush, .worker (echoDecoder 0 0), .worker (echoDecoder 0 0), .stopJoin]).popped.length
      ≤ 1 :=
  (stop_does_not_drain
    (run h264World
        [.Start, .PostFrame (some [1]) 10 .kVideoFrameKey,
         .PostFrame (some [2]) 20 .kVideoFrameDelta,
         .worker (echoDecoder 0 0), .worker (echoDecoder 0 0), .stopSetFlag])
    [.stopPush, .worker (echoDecoder 0 0), .worker (echoDecoder 0 0), .stopJoin]
    (echoDecoder 0 0) (echoDecoder 0 0) (by decide)
    (by intro a ha h; subst h; simp at ha)).1

/-- Actions that differ only in the decoder's answers act alike on the
decoder-independent part of the world. -/
theorem Control.step_congr (c : Control) (a1 a2 : Action) (h : a1.sameUpToDecoder a2) :
    c.step a1 = c.step a2 := by
  cases a1 <;> cases a2 <;> simp only [Action.sameUpToDecoder] at h
  · obtain ⟨h1, h2, h3⟩ := h
    subst h1 h2 h3
    rfl
  all_goals rfl

theorem Control.run_congr (s1 s2 : List Action) (c : Control)
    (h : List.Forall₂ Action.sameUpToDecoder s1 s2) : c.run s1 = c.run s2 := by
  unfold Control.run
  induction h generalizing c with
  | nil => rfl
  | cons ha _ ih =>
    simp only [List.foldl_cons]
    rw [Control.step_congr c _ _ ha]
    exact ih _

/-- One worker step on a queued frame with payload, whatever the decoder answers. -/
theorem worker_submits_frame (dec : DecodeCall → DecodeOutcome) (w : World)
    (frame : Frame) (rest : List Frame)
    (ht : w.vd.decoder_thread_ = .waitPop) (hq : w.vd.queue_ = frame :: rest)
    (hp : frame.hasPayload = true) (hd : hasDecoder w = true) :
    (DecoderThread.step dec w).control =
      { w.control with
        queue_ := rest, decoder_thread_ := .loopHead, popped := w.popped ++ [frame],
        submitted := w.submitted ++ [decodeCallOf frame] } := by
  have h := step_control w (.worker dec)
  have e : step w (.worker dec) = DecoderThread.step dec w := by
    unfold step
    rw [if_neg (by rw [ht]; decide)]
  rw [e] at h
  rw [h]
  unfold hasDecoder at hd
  cases hdd : w.vd.decoder_ with
  | none => rw [hdd] at hd; exact Bool.noConfusion hd
  | some d =>
    simp [Control.step, World.control, ht, hq, hdd, hp]

/-- The failure of a decode is logged and changes nothing else. -/
theorem processFrame_failure_logged (dec : DecodeCall → DecodeOutcome) (w : World)
    (frame : Frame) (hp : frame.hasPayload = true) (hd : hasDecoder w = true)
    (hres : (dec (decodeCallOf frame)).res ≠ WEBRTC_VIDEO_CODEC_OK) :
    ∃ before : List Event,
      (processFrame dec w frame).events =
        before ++ [Event.logFailure (dec (decodeCallOf frame)).res] := by
  unfold processFrame
  unfold Frame.hasPayload at hp
  unfold hasDecoder at hd
  cases hc : frame.content_ with
  | none => rw [hc] at hp; exact Bool.noConfusion hp
  | some buf =>
    rw [hc] at hp
    simp only at hp
    cases hdd : w.vd.decoder_ with
    | none => rw [hdd] at hd; exact Bool.noConfusion hd
    | some d =>
      simp only [hp, if_true]
      rw [if_pos (by simpa using hres)]
      exact ⟨_, rfl⟩

/-- C5. Decode errors do not stop or alter the worker: two runs from the same state
whose schedules differ only in what the decoder answers (return codes, delivered
pictures, clock) dequeue the same records, submit the same calls in the same order, and
leave the same queue, stop flag and worker control point.  A worker step on a queued
frame with payload whose decode fails submits that frame once, removes it from the queue
(it is not retried), logs the failure as its last action and is back at the loop test,
ready for the next record. -/
theorem decode_errors_do_not_alter_worker (w : World) (s1 s2 : List Action)
    (dec : DecodeCall → DecodeOutcome) (frame : Frame) (rest : List Frame)
    (hsame : List.Forall₂ Action.sameUpToDecoder s1 s2) :
    ((run w s1).popped = (run w s2).popped ∧
     (run w s1).submitted = (run w s2).submitted ∧
     (run w s1).vd.queue_ = (run w s2).vd.queue_ ∧
     (run w s1).vd.decoder_thread_ = (run w s2).vd.decoder_thread_ ∧
     (run w s1).vd.stop_ = (run w s2).vd.stop_) ∧
    (w.vd.decoder_thread_ = .waitPop → w.vd.queue_ = frame :: rest →
      frame.hasPayload = true → hasDecoder w = true →
      (dec (decodeCallOf frame)).res ≠ WEBRTC_VIDEO_CODEC_OK →
      (DecoderThread.step dec w).submitted = w.submitted ++ [decodeCallOf frame] ∧
      (DecoderThread.step dec w).popped = w.popped ++ [frame] ∧
      (DecoderThread.step dec w).vd.queue_ = rest ∧
      (DecoderThread.step dec w).vd.decoder_thread_ = .loopHead ∧
      (DecoderThread.step dec w).vd.stop_ = w.vd.stop_ ∧
      ∃ before : List Event, (DecoderThread.step dec w).events =
        before ++ [Event.logFailure (dec (decodeCallOf frame)).res]) := by
  constructor
  · have h := Control.run_congr s1 s2 w.control hsame
    rw [← run_control, ← run_control] at h
    exact ⟨congrArg Control.popped h, congrArg Control.submitted h,
      congrArg Control.queue_ h, congrArg Control.decoder_thread_ h,
      congrArg Control.stop_ h⟩
  · intro ht hq hp hd hres
    have h := worker_submits_frame dec w frame rest ht hq hp hd
    refine ⟨congrArg Control.submitted h, congrArg Control.popped h,
      congrArg Control.queue_ h, congrArg Control.decoder_thread_ h,
      congrArg Control.stop_ h, ?_⟩
    unfold DecoderThread.step
    simp only [ht, hq]
    exact processFrame_failure_logged dec _ frame hp hd hres

/-- An instance of C5: from the state where the worker waits to dequeue the first of
two posted frames, a decoder that accepts every frame and one that rejects every frame
give the same submissions; the rejected first frame leaves the second one at the front
of the queue. -/
theorem decode_errors_do_not_alter_worker_witness :
    (run (run h264World
        [.Start, .PostFrame (some [1]) 10 .kVideoFrameKey,
         .PostFrame (some [2]) 20 .kVideoFrameDelta, .worker (echoDecoder 0 0)])
      [.worker (echoDecoder 0 0), .worker (echoDecoder 0 0),
       .worker (echoDecoder 0 0)]).submitted =
    (run (run h264World
        [.Start, .PostFrame (some [1]) 10 .kVideoFrameKey,
         .PostFrame (some [2]) 20 .kVideoFrameDelta, .worker (echoDecoder 0 0)])
      [.worker (failingDecoder (-1)), .worker (failingDecoder (-7)),
       .worker (failingDecoder (-1))]).submitted ∧
    (DecoderThread.step (failingDecoder (-1)) (run h264World
        [.Start, .PostFrame (some [1]) 10 .kVideoFrameKey,
         .PostFrame (some [2]) 20 .kVideoFrameDelta, .worker (echoDecoder 0 0)])).vd.queue_ =
      [Frame.mk3 (some [2]) 20 .kVideoFrameDelta] :=
  ⟨(decode_errors_do_not_alter_worker (run h264World
        [.Start, .PostFrame (some [1]) 10 .kVideoFrameKey,
         .PostFrame (some [2]) 20 .kVideoFrameDelta, .worker (echoDecoder 0 0)])
      [.worker (echoDecoder 0 0), .worker (echoDecoder 0 0), .worker (echoDecoder 0 0)]
      [.worker (failingDecoder (-1)), .worker (failingDecoder (-7)),
       .worker (failingDecoder (-1))]
      (failingDecoder (-1)) (Frame.mk3 (some [1]) 10 .kVideoFrameKey)
      [Frame.mk3 (some [2]) 20 .kVideoFrameDelta]
      (by simp [Action.sameUpToDecoder])).1.2.1,
   ((decode_errors_do_not_alter_worker (run h264World
        [.Start, .PostFrame (some [1]) 10 .kVideoFrameKey,
         .PostFrame (some [2]) 20 .kVideoFrameDelta, .worker (echoDecoder 0 0)])
      [.worker (echoDecoder 0 0), .worker (echoDecoder 0 0), .worker (echoDecoder 0 0)]
      [.worker (failingDecoder (-1)), .worker (failingDecoder (-7)),
       .worker (failingDecoder (-1))]
      (failingDecoder (-1)) (Frame.mk3 (some [1]) 10 .kVideoFrameKey)
      [Frame.mk3 (some [2]) 20 .kVideoFrameDelta]
      (by simp [Action.sameUpToDecoder])).2
      (by decide) (by decide) (by decide) (by decide) (by decide)).2.2.1⟩

/-- A worker that waits on an empty queue does not move. -/
theorem run_blocked (blocked : List Action) (w : World)
    (ht : w.vd.decoder_thread_ = .waitPop) (hq : w.vd.queue_ = [])
    (hb : ∀ a ∈ blocked, ∃ dec, a = Action.worker dec) : run w blocked = w := by
  unfold run
  induction blocked with
  | nil => rfl
  | cons a rest ih =>
    obtain ⟨dec, rfl⟩ := hb _ (List.mem_cons_self _ _)
    simp only [List.foldl_cons]
    have e : step w (.worker dec) = w := by
      unfold step DecoderThread.step
      simp [ht, hq]
    rw [e]
    exact ih (fun b hb' => hb b (List.mem_cons_of_mem _ hb'))

/-- C7. Sentinel wake-up: with the worker blocked on an empty queue, `Stop()` sets the
stop flag (the worker stays blocked, however often it is scheduled) and enqueues exactly
one empty-payload record; the worker then dequeues that record, submits nothing and
causes no event, finds the flag set at the loop test and exits, which lets
`join` return.  The queue is left empty and nothing else has changed. -/
theorem sentinel_wakeup (w : World) (blocked : List Action)
    (d1 d2 : DecodeCall → DecodeOutcome)
    (ht : w.vd.decoder_thread_ = .waitPop) (hq : w.vd.queue_ = [])
    (hb : ∀ a ∈ blocked, ∃ dec, a = Action.worker dec) :
    run w ([.stopSetFlag] ++ blocked) = Stop.setFlag w ∧
    (run w ([.stopSetFlag] ++ blocked ++ [.stopPush])).vd.stop_ = true ∧
    (run w ([.stopSetFlag] ++ blocked ++ [.stopPush])).vd.queue_ = [Frame.default] ∧
    (run w ([.stopSetFlag] ++ blocked ++ [.stopPush])).pushed = w.pushed ++ [Frame.default] ∧
    Frame.default.hasPayload = false ∧
    (run w ([.stopSetFlag] ++ blocked ++ [.stopPush, .worker d1])).vd.queue_ = [] ∧
    (run w ([.stopSetFlag] ++ blocked ++ [.stopPush, .worker d1])).submitted = w.submitted ∧
    (run w ([.stopSetFlag] ++ blocked ++ [.stopPush, .worker d1])).events = w.events ∧
    run w ([.stopSetFlag] ++ blocked ++ [.stopPush, .worker d1]) =
      { w with vd := { w.vd with stop_ := true, decoder_thread_ := .loopHead },
               pushed := w.pushed ++ [Frame.default],
               popped := w.popped ++ [Frame.default] } ∧
    run w ([.stopSetFlag] ++ blocked ++ [.stopPush, .worker d1, .worker d2]) =
      { w with vd := { w.vd with stop_ := true, decoder_thread_ := .finished },
               pushed := w.pushed ++ [Frame.default],
               popped := w.popped ++ [Frame.default] } ∧
    run w ([.stopSetFlag] ++ blocked ++ [.stopPush, .worker d1, .worker d2, .stopJoin]) =
      { w with vd := { w.vd with stop_ := true, decoder_thread_ := .notStarted },
               pushed := w.pushed ++ [Frame.default],
               popped := w.popped ++ [Frame.default] } := by
  have h0 : run w ([.stopSetFlag] ++ blocked) = Stop.setFlag w := by
    have e : step w .stopSetFlag = Stop.setFlag w := by
      unfold step
      simp [ht]
    show List.foldl step w ([Action.stopSetFlag] ++ blocked) = Stop.setFlag w
    rw [List.foldl_append, List.foldl_cons, List.foldl_nil, e]
    exact run_blocked blocked (Stop.setFlag w) ht hq hb
  have happ : ∀ l : List Action,
      run w ([.stopSetFlag] ++ blocked ++ l) = run (Stop.setFlag w) l := by
    intro l
    show List.foldl step w ([Action.stopSetFlag] ++ blocked ++ l) = _
    rw [List.foldl_append]
    exact congrArg (fun x => List.foldl step x l) h0
  refine ⟨h0, ?_, ?_, ?_, rfl, ?_, ?_, ?_, ?_, ?_, ?_⟩
  all_goals rw [happ]
  all_goals
    simp [run, step, Stop.setFlag, Stop.push, Stop.join, queuePush, DecoderThread.step, processFrame,
      Frame.default, ht, hq]

/-- An instance of C7: a started pipeline whose worker waits on the empty queue. -/
theorem sentinel_wakeup_witness :
    (run (run h264World [.Start, .worker (echoDecoder 0 0)])
      ([.stopSetFlag] ++ [.worker (echoDecoder 0 0)] ++
        [.stopPush, .worker (echoDecoder 0 0), .worker (echoDecoder 0 0)])).vd.decoder_thread_ =
      .finished :=
  (congrArg (fun x : World => x.vd.decoder_thread_)
    (sentinel_wakeup (run h264World [.Start, .worker (echoDecoder 0 0)])
      [.worker (echoDecoder 0 0)] (echoDecoder 0 0) (echoDecoder 0 0) (by decide) (by decide)
      (by intro a ha; simp at ha; exact ⟨_, ha⟩)).2.2.2.2.2.2.2.2.2.1).trans rfl


/-! ## First frame after construction -/

theorem sleepsBeforeFirstFrame_append (es es' : List Event) :
    sleepsBeforeFirstFrame (es ++ es') =
      if sinkFrames es = [] then sleepsBeforeFirstFrame es ++ sleepsBeforeFirstFrame es'
      else sleepsBeforeFirstFrame es := by
  induction es with
  | nil => simp [sleepsBeforeFirstFrame, sinkFrames]
  | cons e es ih =>
    cases e with
    | sleep_for ms =>
      show ms :: sleepsBeforeFirstFrame (es ++ es') =
        if sinkFrames es = [] then
          (ms :: sleepsBeforeFirstFrame es) ++ sleepsBeforeFirstFrame es'
        else ms :: sleepsBeforeFirstFrame es
      rw [ih]
      split <;> rfl
    | OnFrame f => simp [sleepsBeforeFirstFrame, sinkFrames]
    | logFailure res => exact ih

theorem waiting_of_prevts_zero (s : VideoDecoder) (f : VideoFrame) (ts : Int)
    (h : s.prevts_ = 0) : waiting s f ts = [] := by
  unfold waiting
  simp [h]

theorem FirstFrameInv_runCallbacks (cbs : List (VideoFrame × Int × Int)) (w : World)
    (h : FirstFrameInv w) : FirstFrameInv (runCallbacks w cbs) := by
  induction cbs generalizing w with
  | nil => exact h
  | cons cb cbs ih =>
    obtain ⟨f, c1, c2⟩ := cb
    unfold runCallbacks
    apply ih
    obtain ⟨h1, h2⟩ := h
    unfold FirstFrameInv
    simp only [Decoded, sleepsBeforeFirstFrame_append, sinkFrames_append, sinkFrames]
    constructor
    · by_cases hs : sinkFrames w.events = []
      · rw [if_pos hs, h1, waiting_of_prevts_zero _ _ _ (h2 hs)]
        simp [sleepsBeforeFirstFrame, sinkFrames]
      · rw [if_neg hs, h1]
    · intro hcontra
      simp at hcontra

theorem FirstFrameInv_processFrame (dec : DecodeCall → DecodeOutcome) (w : World)
    (frame : Frame) (h : FirstFrameInv w) : FirstFrameInv (processFrame dec w frame) := by
  unfold processFrame
  split
  · exact h
  · split
    · split
      · exact h
      · have hr := FirstFrameInv_runCallbacks (dec (decodeCallOf frame)).callbacks
          { w with submitted := w.submitted ++ [decodeCallOf frame] } h
        dsimp only
        split
        · obtain ⟨h1, h2⟩ := hr
          unfold FirstFrameInv
          simp only [sleepsBeforeFirstFrame_append, sinkFrames_append, sinkFrames,
            sleepsBeforeFirstFrame, List.append_nil, h1, ite_self, true_and]
          exact h2
        · exact hr
    · exact h

theorem FirstFrameInv_step (w : World) (a : Action) (h : FirstFrameInv w) :
    FirstFrameInv (step w a) := by
  unfold step
  split
  · exact h
  · cases a with
    | PostFrame content ts frame_type => exact h
    | Start =>
      simp only [Start]
      split <;> exact h
    | stopSetFlag => exact h
    | stopPush => exact h
    | stopJoin =>
      simp only [Stop.join]
      split <;> exact h
    | worker dec =>
      simp only [DecoderThread.step]
      split
      · split <;> exact h
      · split
        · exact h
        · exact FirstFrameInv_processFrame dec _ _ h
      · exact h

theorem FirstFrameInv_run (schedule : List Action) (w : World) (h : FirstFrameInv w) :
    FirstFrameInv (run w schedule) := by
  unfold run
  induction schedule generalizing w with
  | nil => exact h
  | cons a rest ih => exact ih _ (FirstFrameInv_step w a h)

theorem FirstFrameInv_session (yields : String → Bool) (calls : List SessionCall) (w : World)
    (h : FirstFrameInv w) : FirstFrameInv (runSession yields w calls) := by
  unfold runSession
  induction calls generalizing w with
  | nil => exact h
  | cons c cs ih =>
    apply ih
    have hi : ∀ (x : World) (t : Option VideoCodecType), FirstFrameInv x →
        FirstFrameInv (initAndRegister x t) := by
      intro x t hx
      unfold initAndRegister
      split <;> exact hx
    have ha : ∀ (x : World) (p : Option Nat), FirstFrameInv x →
        FirstFrameInv (assignDecoder x p) := fun _ _ hx => hx
    have hc : ∀ (x : World) (fmt : String), FirstFrameInv x →
        FirstFrameInv (CreateVideoDecoder yields x fmt).1 := by
      intro x fmt hx
      unfold CreateVideoDecoder
      split <;> exact hx
    cases c with
    | createDecoder codec =>
      simp only [SessionCall.run, createDecoder]
      split
      · exact hi _ _ (ha _ _ (hc _ _ h))
      · split
        · exact hi _ _ (ha _ _ (hc _ _ h))
        · exact hi _ _ h
    | destroyDecoder => exact h

/-- C6 as stated fails: a first `Start()`/`Stop()` cycle decodes a frame with source
timestamp 1000 and leaves `prevts_ = 5001`; after the second `Start()` the first decoded
frame, with source timestamp 1500 and decoded at clock reading 5101 ms, is forwarded
only after a pacing sleep of 400 ms. -/
theorem first_frame_after_restart_counterexample :
    (run h264World
      [.Start, .PostFrame (some [1]) 1000 .kVideoFrameKey,
       .worker (echoDecoder 0 0), .worker (echoDecoder 5000000000 5001000000),
       .stopSetFlag, .stopPush, .worker (echoDecoder 0 0), .stopJoin]).vd.decoder_thread_ =
      .notStarted ∧
    (run h264World
      [.Start, .PostFrame (some [1]) 1000 .kVideoFrameKey,
       .worker (echoDecoder 0 0), .worker (echoDecoder 5000000000 5001000000),
       .stopSetFlag, .stopPush, .worker (echoDecoder 0 0), .stopJoin]).events =
      [Event.OnFrame { timestamp_rtp_ := 1000, ntp_time_ms_ := 1000, buffer := 0 }] ∧
    (run h264World
      [.Start, .PostFrame (some [1]) 1000 .kVideoFrameKey,
       .worker (echoDecoder 0 0), .worker (echoDecoder 5000000000 5001000000),
       .stopSetFlag, .stopPush, .worker (echoDecoder 0 0), .stopJoin,
       .Start, .PostFrame (some [2]) 1500 .kVideoFrameDelta,
       .worker (echoDecoder 0 0), .worker (echoDecoder 0 0), .worker (echoDecoder 0 0),
       .worker (echoDecoder 5101000000 5502000000)]).events =
      [Event.OnFrame { timestamp_rtp_ := 1000, ntp_time_ms_ := 1000, buffer := 0 },
       Event.sleep_for 400,
       Event.OnFrame { timestamp_rtp_ := 1500, ntp_time_ms_ := 1500, buffer := 0 }] := by
  decide

/-- C6, amended. On every pipeline history since construction (any codec session calls,
then any interleaving of `PostFrame`, `Start()`, `Stop()` and worker steps) the first
frame handed to the sink is preceded by no pacing sleep; a call of `Decoded` with
`prevts_ = 0` sleeps 0 ms.  `Start()` leaves `previmagets_` and `prevts_` as they are, so
the first frame decoded after a later `Start()` is paced against the last frame of the
cycle before. -/
theorem first_frame_unpaced (yields : String → Bool) (wait : Bool)
    (calls : List SessionCall) (schedule : List Action) :
    sleepsBeforeFirstFrame
      (run (runSession yields (World.new wait) calls) schedule).events = [] ∧
    (∀ (s : VideoDecoder) (f : VideoFrame) (c1 c2 : Int),
      s.prevts_ = 0 → sleptMs (Decoded s f c1 c2).2.1 = 0) ∧
    (∀ w : World, (Start w).vd.prevts_ = w.vd.prevts_ ∧
      (Start w).vd.previmagets_ = w.vd.previmagets_ ∧ (Start w).events = w.events) := by
  refine ⟨?_, ?_, ?_⟩
  · have h0 : FirstFrameInv (World.new wait) := by
      unfold FirstFrameInv World.new VideoDecoder.new
      simp [sleepsBeforeFirstFrame]
    exact (FirstFrameInv_run schedule _ (FirstFrameInv_session yields calls _ h0)).1
  · intro s f c1 c2 h
    rw [sleptMs_Decoded, if_neg]
    rintro ⟨_, hp, _⟩
    exact hp h
  · intro w
    unfold Start
    simp only
    split <;> exact ⟨rfl, rfl, rfl⟩


/-! ## Parameter extractor -/

/-- A match of `strstr` is a suffix of the text that starts with the needle. -/
theorem strstr_some (needle : List Char) (haystack s : List Char)
    (h : strstr haystack needle = some s) :
    ∃ pre, haystack = pre ++ s ∧ needle <+: s := by
  induction haystack with
  | nil =>
    unfold strstr at h
    split at h
    · rename_i he
      simp only [Option.some.injEq] at h
      subst h
      refine ⟨[], rfl, ?_⟩
      simp only [List.isEmpty_iff] at he
      rw [he]
    · exact Option.noConfusion h
  | cons c cs ih =>
    unfold strstr at h
    split at h
    · rename_i hp
      simp only [Option.some.injEq] at h
      subst h
      exact ⟨[], rfl, List.isPrefixOf_iff_prefix.mp hp⟩
    · obtain ⟨pre, hpre, hs⟩ := ih h
      exact ⟨c :: pre, by rw [hpre]; rfl, hs⟩

/-- When `strstr` finds nothing the needle does not occur in the text. -/
theorem strstr_none (needle : List Char) (haystack : List Char)
    (h : strstr haystack needle = none) : ¬ needle <:+: haystack := by
  induction haystack with
  | nil =>
    unfold strstr at h
    split at h
    · exact Option.noConfusion h
    · rename_i he
      intro hi
      apply he
      rw [List.infix_nil] at hi
      rw [hi]
      rfl
  | cons c cs ih =>
    unfold strstr at h
    split at h
    · exact Option.noConfusion h
    · rename_i hp
      intro hi
      rw [List.infix_cons_iff] at hi
      rcases hi with hi | hi
      · exact hp (List.isPrefixOf_iff_prefix.mpr hi)
      · exact ih h hi

/-- C10. Shape of `getInitFrames`: the result is empty when the codec is not "H264",
when the text does not contain `sprop-parameter-sets=`, or when `DecodeSprop` rejects
the isolated value; otherwise (codec "H264", marker found, value decoded) it is exactly
the two buffers start code ++ SPS and start code ++ PPS, in this order.  Its length is
0 or 2, never 1. -/
theorem getInitFrames_shape (H26X_marker : List UInt8)
    (DecodeSprop : List Char → Option (List UInt8 × List UInt8))
    (codec : String) (sdp : List Char) :
    (codec ≠ "H264" → getInitFrames H26X_marker DecodeSprop codec sdp = []) ∧
    (¬ pattern <:+: sdp → getInitFrames H26X_marker DecodeSprop codec sdp = []) ∧
    (∀ sprop, strstr sdp pattern = some sprop → DecodeSprop (isolate sprop) = none →
      getInitFrames H26X_marker DecodeSprop codec sdp = []) ∧
    (codec = "H264" → pattern <:+: sdp →
      ∃ sprop, strstr sdp pattern = some sprop ∧
        (∃ pre, sdp = pre ++ sprop ∧ pattern <+: sprop) ∧
        ∀ sps pps, DecodeSprop (isolate sprop) = some (sps, pps) →
          getInitFrames H26X_marker DecodeSprop codec sdp =
            [H26X_marker ++ sps, H26X_marker ++ pps]) ∧
    ((getInitFrames H26X_marker DecodeSprop codec sdp).length = 0 ∨
      (getInitFrames H26X_marker DecodeSprop codec sdp).length = 2) ∧
    (getInitFrames H26X_marker DecodeSprop codec sdp).length ≠ 1 := by
  have hlen : (getInitFrames H26X_marker DecodeSprop codec sdp).length = 0 ∨
      (getInitFrames H26X_marker DecodeSprop codec sdp).length = 2 := by
    unfold getInitFrames
    split
    · split
      · split
        · right; rfl
        · left; rfl
      · left; rfl
    · left; rfl
  refine ⟨?_, ?_, ?_, ?_, hlen, ?_⟩
  · intro hc
    unfold getInitFrames
    rw [if_neg hc]
  · intro hn
    unfold getInitFrames
    split
    · cases hs : strstr sdp pattern with
      | none => rfl
      | some sprop =>
        obtain ⟨pre, hpre, hp⟩ := strstr_some pattern sdp sprop hs
        exfalso
        apply hn
        obtain ⟨post, hpost⟩ := hp
        exact ⟨pre, post, by rw [hpre, ← hpost]; simp⟩
    · rfl
  · intro sprop hs hd
    unfold getInitFrames
    split
    · simp only [hs, hd]
    · rfl
  · intro hc hi
    cases hs : strstr sdp pattern with
    | none => exact absurd hi (strstr_none pattern sdp hs)
    | some sprop =>
      refine ⟨sprop, rfl, strstr_some pattern sdp sprop hs, ?_⟩
      intro sps pps hd
      unfold getInitFrames
      rw [if_pos hc]
      simp only [hs, hd, List.nil_append, List.singleton_append]
  · rcases hlen with h | h <;> rw [h] <;> decide

/-- An instance of C10: a marker followed by a decodable value that ends at a space
gives the two start-code-prefixed buffers; a text without the marker gives none. -/
theorem getInitFrames_shape_witness :
    getInitFrames exampleMarker exampleDecodeSprop "H264"
      "a=fmtp:96 sprop-parameter-sets=abc,de packetization-mode=1".toList =
      [[0, 0, 0, 1, 103, 66], [0, 0, 0, 1, 104, 206]] ∧
    getInitFrames exampleMarker exampleDecodeSprop "H264"
      "a=fmtp:96 packetization-mode=1".toList = [] :=
  ⟨by
    obtain ⟨sprop, hs, _, h⟩ := (getInitFrames_shape exampleMarker exampleDecodeSprop "H264"
      "a=fmtp:96 sprop-parameter-sets=abc,de packetization-mode=1".toList).2.2.2.1 rfl
      (by decide)
    have e : sprop = "sprop-parameter-sets=abc,de packetization-mode=1".toList := by
      have : strstr "a=fmtp:96 sprop-parameter-sets=abc,de packetization-mode=1".toList pattern
          = some "sprop-parameter-sets=abc,de packetization-mode=1".toList := by decide
      rw [this] at hs
      exact (Option.some.inj hs).symm
    subst e
    exact h [103, 66] [104, 206] (by decide),
   (getInitFrames_shape exampleMarker exampleDecodeSprop "H264"
      "a=fmtp:96 packetization-mode=1".toList).2.1 (by decide)⟩


/-! ## Empty-payload records -/

/-- A record without payload is dequeued and dropped: nothing else changes. -/
theorem step_empty_record (dec : DecodeCall → DecodeOutcome) (w : World)
    (frame : Frame) (rest : List Frame)
    (ht : w.vd.decoder_thread_ = .waitPop) (hq : w.vd.queue_ = frame :: rest)
    (hp : frame.hasPayload = false) :
    DecoderThread.step dec w =
      { w with vd := { w.vd with queue_ := rest, decoder_thread_ := .loopHead },
               popped := w.popped ++ [frame] } := by
  unfold DecoderThread.step
  simp only [ht, hq]
  unfold processFrame
  unfold Frame.hasPayload at hp
  cases hc : frame.content_ with
  | none => rfl
  | some buf =>
    rw [hc] at hp
    simp only at hp
    simp [hp]

/-- C11 as stated fails: with the stop flag clear, a record with a null payload posted
through `PostFrame` is dequeued and skipped; the worker does not exit but goes on to
dequeue and submit the frame posted after it. -/
theorem empty_record_counterexample :
    (Frame.mk3 none 0 .kVideoFrameKey).hasPayload = false ∧
    (run h264World
      [.Start, .PostFrame none 0 .kVideoFrameKey, .PostFrame (some [2]) 20 .kVideoFrameDelta,
       .worker (echoDecoder 0 0), .worker (echoDecoder 0 0)]).popped =
      [Frame.mk3 none 0 .kVideoFrameKey] ∧
    (run h264World
      [.Start, .PostFrame none 0 .kVideoFrameKey, .PostFrame (some [2]) 20 .kVideoFrameDelta,
       .worker (echoDecoder 0 0), .worker (echoDecoder 0 0),
       .worker (echoDecoder 0 0)]).vd.decoder_thread_ = .waitPop ∧
    (run h264World
      [.Start, .PostFrame none 0 .kVideoFrameKey, .PostFrame (some [2]) 20 .kVideoFrameDelta,
       .worker (echoDecoder 0 0), .worker (echoDecoder 0 0),
       .worker (echoDecoder 0 0), .worker (echoDecoder 0 0)]).popped =
      [Frame.mk3 none 0 .kVideoFrameKey, Frame.mk3 (some [2]) 20 .kVideoFrameDelta] ∧
    (run h264World
      [.Start, .PostFrame none 0 .kVideoFrameKey, .PostFrame (some [2]) 20 .kVideoFrameDelta,
       .worker (echoDecoder 0 0), .worker (echoDecoder 0 0),
       .worker (echoDecoder 0 0), .worker (echoDecoder 0 0)]).submitted =
      [decodeCallOf (Frame.mk3 (some [2]) 20 .kVideoFrameDelta)] := by
  decide

/-- C11, amended. When the dequeued record has a null or empty payload, the worker
submits nothing, causes no event and returns to the loop test; what happens there
depends on the stop flag alone.  With `stop_` set (as `Stop()` sets it before it pushes
its sentinel) the worker exits and dequeues nothing more, however often it is
scheduled.  With `stop_` clear (an empty record posted through `PostFrame`) the worker
re-enters the loop body and dequeues the next queued record. -/
theorem empty_record_skipped (w : World) (dec d2 d3 : DecodeCall → DecodeOutcome)
    (frame : Frame) (rest : List Frame)
    (ht : w.vd.decoder_thread_ = .waitPop) (hq : w.vd.queue_ = frame :: rest)
    (hp : frame.hasPayload = false) :
    DecoderThread.step dec w =
      { w with vd := { w.vd with queue_ := rest, decoder_thread_ := .loopHead },
               popped := w.popped ++ [frame] } ∧
    (DecoderThread.step dec w).submitted = w.submitted ∧
    (DecoderThread.step dec w).events = w.events ∧
    (w.vd.stop_ = true →
      run w [.worker dec, .worker d2] =
        { w with vd := { w.vd with queue_ := rest, decoder_thread_ := .finished },
                 popped := w.popped ++ [frame] } ∧
      run w [.worker dec, .worker d2, .worker d3] = run w [.worker dec, .worker d2]) ∧
    (w.vd.stop_ = false →
      run w [.worker dec, .worker d2] =
        { w with vd := { w.vd with queue_ := rest, decoder_thread_ := .waitPop },
                 popped := w.popped ++ [frame] } ∧
      ∀ (next : Frame) (rest' : List Frame), rest = next :: rest' →
        (run w [.worker dec, .worker d2, .worker d3]).popped = w.popped ++ [frame, next] ∧
        (run w [.worker dec, .worker d2, .worker d3]).vd.queue_ = rest') := by
  have h1 := step_empty_record dec w frame rest ht hq hp
  have e1 : step w (.worker dec) = DecoderThread.step dec w := by
    unfold step
    rw [if_neg (by rw [ht]; decide)]
  refine ⟨h1, by rw [h1], by rw [h1], ?_, ?_⟩
  · intro hs
    have h2 : run w [.worker dec, .worker d2] =
        { w with vd := { w.vd with queue_ := rest, decoder_thread_ := .finished },
                 popped := w.popped ++ [frame] } := by
      show step (step w (.worker dec)) (.worker d2) = _
      rw [e1, h1]
      simp [step, DecoderThread.step, hs]
    refine ⟨h2, ?_⟩
    show step (run w [.worker dec, .worker d2]) (.worker d3) = _
    rw [h2]
    simp [step, DecoderThread.step]
  · intro hs
    have h2 : run w [.worker dec, .worker d2] =
        { w with vd := { w.vd with queue_ := rest, decoder_thread_ := .waitPop },
                 popped := w.popped ++ [frame] } := by
      show step (step w (.worker dec)) (.worker d2) = _
      rw [e1, h1]
      simp [step, DecoderThread.step, hs]
    refine ⟨h2, ?_⟩
    intro next rest' hr
    have h3 := run_control [.worker dec, .worker d2, .worker d3] w
    have h4 : (run w [.worker dec, .worker d2, .worker d3]).control =
        (run w [.worker dec, .worker d2]).control.step (.worker d3) := by
      show (step (run w [.worker dec, .worker d2]) (.worker d3)).control = _
      exact step_control _ _
    rw [h2] at h4
    have h5 : ((run w [.worker dec, .worker d2, .worker d3]).control.popped =
        w.popped ++ [frame, next]) ∧
        (run w [.worker dec, .worker d2, .worker d3]).control.queue_ = rest' := by
      rw [h4]
      simp only [Control.step, World.control, hr]
      by_cases hn : next.hasPayload = true
      · cases w.vd.decoder_ <;> simp [hn]
      · simp [hn]
    exact h5

/-- An instance of the amended C11: a null-payload record posted ahead of a frame; the
worker, with the stop flag clear, skips it and dequeues the frame. -/
theorem empty_record_skipped_witness :
    (run (run h264World
        [.Start, .PostFrame none 0 .kVideoFrameKey, .PostFrame (some [2]) 20 .kVideoFrameDelta,
         .worker (echoDecoder 0 0)])
      [.worker (echoDecoder 0 0), .worker (echoDecoder 0 0), .worker (echoDecoder 0 0)]).popped =
      [Frame.mk3 none 0 .kVideoFrameKey, Frame.mk3 (some [2]) 20 .kVideoFrameDelta] :=
  (((empty_record_skipped (run h264World
        [.Start, .PostFrame none 0 .kVideoFrameKey, .PostFrame (some [2]) 20 .kVideoFrameDelta,
         .worker (echoDecoder 0 0)])
      (echoDecoder 0 0) (echoDecoder 0 0) (echoDecoder 0 0)
      (Frame.mk3 none 0 .kVideoFrameKey) [Frame.mk3 (some [2]) 20 .kVideoFrameDelta]
      (by decide) (by decide) (by decide)).2.2.2.2 (by decide)).2
      (Frame.mk3 (some [2]) 20 .kVideoFrameDelta) [] rfl).1


/-! ## Pacing state -/

/-- The callbacks of one `Decode` call leave both pacing scalars alone (when there is
no callback) or set both from one of the delivered frames. -/
theorem runCallbacks_pacing (cbs : List (VideoFrame × Int × Int)) (w : World) :
    ((runCallbacks w cbs).vd.previmagets_ = w.vd.previmagets_ ∧
      (runCallbacks w cbs).vd.prevts_ = w.vd.prevts_) ∨
    ∃ f c1 c2, (f, c1, c2) ∈ cbs ∧
      (runCallbacks w cbs).vd.previmagets_ = (f.timestamp : Int) ∧
      (runCallbacks w cbs).vd.prevts_ = nowMs c2 := by
  induction cbs generalizing w with
  | nil => exact Or.inl ⟨rfl, rfl⟩
  | cons cb cbs ih =>
    obtain ⟨f, c1, c2⟩ := cb
    unfold runCallbacks
    rcases ih { w with vd := (Decoded w.vd f c1 c2).1,
                       events := w.events ++ (Decoded w.vd f c1 c2).2.1 } with h | h
    · exact Or.inr ⟨f, c1, c2, List.mem_cons_self _ _, h.1, h.2⟩
    · obtain ⟨f', c1', c2', hm, h1, h2⟩ := h
      exact Or.inr ⟨f', c1', c2', List.mem_cons_of_mem _ hm, h1, h2⟩

/-- A millisecond clock reading is the clock count divided by 10^6, rounded toward
zero. -/
theorem nowMs_eq (count : Int) (h : InInt64 count) :
    (0 ≤ count → nowMs count = count / 1000000) ∧
    (count < 0 → nowMs count = -((-count) / 1000000)) := by
  unfold nowMs
  rw [toInt64_of_inInt64 h]
  constructor
  · intro h0
    rw [Int.tdiv_eq_ediv h0 (by decide), Int.tdiv_eq_ediv (by omega) (by decide)]
    omega
  · intro h0
    obtain ⟨m, hm⟩ : ∃ m : Int, count = -m := ⟨-count, by omega⟩
    subst hm
    have e1 : Int.tdiv m 1000 = m / 1000 := Int.tdiv_eq_ediv (by omega) (by decide)
    have e2 : Int.tdiv (m / 1000) 1000 = m / 1000 / 1000 :=
      Int.tdiv_eq_ediv (by omega) (by decide)
    rw [Int.neg_tdiv, e1, Int.neg_tdiv, e2]
    omega

/-- The statements of `Decoded` in source order: first clock read, at most one sleep,
the forward, the two stores with the second clock read between them. -/
theorem DecodedProgram_shape (s : VideoDecoder) (f : VideoFrame) (c1 c2 : Int) :
    ∃ sleeps : List Stmt,
      DecodedProgram s f c1 c2 =
        [Stmt.now c1] ++ sleeps ++
          [Stmt.OnFrame f, Stmt.store_previmagets (f.timestamp : Int), Stmt.now c2,
           Stmt.store_prevts (nowMs c2)] ∧
      (∀ x ∈ sleeps, ∃ ms, x = Stmt.sleep_for ms) ∧
      sleeps.filterMap Stmt.event? = waiting s f (nowMs c1) := by
  unfold DecodedProgram waiting
  simp only
  split
  · split
    · exact ⟨_, rfl, by simp, rfl⟩
    · exact ⟨[], rfl, by simp, rfl⟩
  · exact ⟨[], rfl, by simp, rfl⟩

/-- Running the statements of `DecodedProgram` gives the events and the members that
`Decoded` returns. -/
theorem DecodedProgram_runs (s : VideoDecoder) (f : VideoFrame) (c1 c2 : Int) :
    (DecodedProgram s f c1 c2).filterMap Stmt.event? = (Decoded s f c1 c2).2.1 ∧
    (DecodedProgram s f c1 c2).foldl Stmt.apply s = (Decoded s f c1 c2).1 := by
  obtain ⟨sleeps, hshape, hsl, hev⟩ := DecodedProgram_shape s f c1 c2
  rw [hshape]
  have hfold : ∀ (l : List Stmt) (x : VideoDecoder),
      (∀ y ∈ l, ∃ ms, y = Stmt.sleep_for ms) → l.foldl Stmt.apply x = x := by
    intro l
    induction l with
    | nil => intro x _; rfl
    | cons y l ih =>
      intro x hy
      obtain ⟨ms, rfl⟩ := hy _ (List.mem_cons_self _ _)
      exact ih x (fun z hz => hy z (List.mem_cons_of_mem _ hz))
  constructor
  · rw [List.filterMap_append, List.filterMap_append, hev]
    rfl
  · rw [List.foldl_append, List.foldl_append]
    have e : List.foldl Stmt.apply s [Stmt.now c1] = s := rfl
    rw [e, hfold sleeps s hsl]
    rfl

/-- C12. Pacing state is updated together: a call of `Decoded`, with or without a
sleep, ends with `previmagets_` equal to the decoded frame's source timestamp and
`prevts_` equal to the millisecond reading (clock count divided by 10^6) of the clock
read that follows the sleep and the forward in the order of the source, and with every
other member (decoder, queue, thread, stop flag, wait flag) unchanged; the two stores
are adjacent, separated by that clock read only.  No action of any thread and no codec
session call changes one of the two scalars without the other: each leaves both as
they were, or is a worker step whose decode delivered a frame and sets both from that
frame's callback. -/
theorem pacing_state_updated_together (s : VideoDecoder) (f : VideoFrame) (c1 c2 : Int)
    (w : World) (a : Action) (yields : String → Bool) (call : SessionCall) :
    (Decoded s f c1 c2).1 =
      { s with previmagets_ := (f.timestamp : Int), prevts_ := nowMs c2 } ∧
    (Decoded s f c1 c2).1.previmagets_ = (f.timestamp : Int) ∧
    (Decoded s f c1 c2).1.prevts_ = nowMs c2 ∧
    ((Decoded s f c1 c2).1.decoder_ = s.decoder_ ∧
      (Decoded s f c1 c2).1.queue_ = s.queue_ ∧
      (Decoded s f c1 c2).1.decoder_thread_ = s.decoder_thread_ ∧
      (Decoded s f c1 c2).1.stop_ = s.stop_ ∧
      (Decoded s f c1 c2).1.wait_ = s.wait_) ∧
    (((step w a).vd.previmagets_ = w.vd.previmagets_ ∧
        (step w a).vd.prevts_ = w.vd.prevts_) ∨
      ∃ dec g d1 d2, a = Action.worker dec ∧
        (step w a).vd.previmagets_ = (g.timestamp : Int) ∧
        (step w a).vd.prevts_ = nowMs d2 ∧
        ∃ frame, (g, d1, d2) ∈ (dec (decodeCallOf frame)).callbacks) ∧
    ((SessionCall.run yields w call).vd.previmagets_ = w.vd.previmagets_ ∧
      (SessionCall.run yields w call).vd.prevts_ = w.vd.prevts_) ∧
    (∃ sleeps : List Stmt,
      DecodedProgram s f c1 c2 =
        [Stmt.now c1] ++ sleeps ++
          [Stmt.OnFrame f, Stmt.store_previmagets (f.timestamp : Int), Stmt.now c2,
           Stmt.store_prevts (nowMs c2)] ∧
      (∀ x ∈ sleeps, ∃ ms, x = Stmt.sleep_for ms) ∧
      sleeps.filterMap Stmt.event? = waiting s f (nowMs c1)) ∧
    ((DecodedProgram s f c1 c2).filterMap Stmt.event? = (Decoded s f c1 c2).2.1 ∧
      (DecodedProgram s f c1 c2).foldl Stmt.apply s = (Decoded s f c1 c2).1) ∧
    (0 ≤ c2 → c2 < 2 ^ 63 → (Decoded s f c1 c2).1.prevts_ = c2 / 1000000) ∧
    (f.timestamp_rtp_ < 2 ^ 32 →
      (Decoded s f c1 c2).1.previmagets_ = (f.timestamp_rtp_ : Int)) := by
  refine ⟨rfl, rfl, rfl, ⟨rfl, rfl, rfl, rfl, rfl⟩, ?_, ?_, ?_,
    DecodedProgram_runs s f c1 c2, ?_, ?_⟩
  rotate_left 2
  · unfold DecodedProgram waiting
    simp only
    split
    · split
      · exact ⟨_, rfl, by simp, rfl⟩
      · exact ⟨[], rfl, by simp, rfl⟩
    · exact ⟨[], rfl, by simp, rfl⟩
  · intro h0 h1
    show nowMs c2 = c2 / 1000000
    unfold nowMs
    rw [toInt64_of_inInt64 (by unfold InInt64; omega), Int.tdiv_eq_ediv h0 (by decide),
      Int.tdiv_eq_ediv (by omega) (by decide)]
    omega
  · intro hlt
    show ((toUInt32 f.timestamp_rtp_ : Nat) : Int) = _
    unfold toUInt32
    omega
  · unfold step
    split
    · exact Or.inl ⟨rfl, rfl⟩
    · cases a with
      | PostFrame content ts frame_type => exact Or.inl ⟨rfl, rfl⟩
      | Start =>
        simp only [Start]
        split <;> exact Or.inl ⟨rfl, rfl⟩
      | stopSetFlag => exact Or.inl ⟨rfl, rfl⟩
      | stopPush => exact Or.inl ⟨rfl, rfl⟩
      | stopJoin =>
        simp only [Stop.join]
        split <;> exact Or.inl ⟨rfl, rfl⟩
      | worker dec =>
        simp only [DecoderThread.step]
        split
        · split <;> exact Or.inl ⟨rfl, rfl⟩
        · split
          · exact Or.inl ⟨rfl, rfl⟩
          · rename_i frame rest hq
            unfold processFrame
            split
            · exact Or.inl ⟨rfl, rfl⟩
            · split
              · split
                · exact Or.inl ⟨rfl, rfl⟩
                · dsimp only
                  rcases runCallbacks_pacing (dec (decodeCallOf frame)).callbacks
                    { vd := { w.vd with queue_ := rest, decoder_thread_ := .loopHead },
                      heap := w.heap, nextId := w.nextId, pushed := w.pushed,
                      popped := w.popped ++ [frame],
                      submitted := w.submitted ++ [decodeCallOf frame],
                      events := w.events } with h | h
                  · split <;> exact Or.inl h
                  · obtain ⟨g, d1, d2, hm, h1, h2⟩ := h
                    split <;> exact Or.inr ⟨dec, g, d1, d2, rfl, h1, h2, frame, hm⟩
              · exact Or.inl ⟨rfl, rfl⟩
        · exact Or.inl ⟨rfl, rfl⟩
  · cases call with
    | createDecoder codec =>
      simp only [SessionCall.run, createDecoder]
      split
      · rw [(initAndRegister_decoder _ _).1]
        unfold CreateVideoDecoder
        split <;> exact ⟨rfl, rfl⟩
      · split
        · rw [(initAndRegister_decoder _ _).1]
          unfold CreateVideoDecoder
          split <;> exact ⟨rfl, rfl⟩
        · rw [(initAndRegister_decoder _ _).1]
          exact ⟨rfl, rfl⟩
    | destroyDecoder => exact ⟨rfl, rfl⟩


/-- An instance of C12: pacing enabled, previous frame at source timestamp 1000 seen at
5000 ms; a frame with source timestamp 1033 is decoded at 5010 ms, the call sleeps
23 ms, forwards, then reads the clock at 5034 ms: afterwards `previmagets_ = 1033` and
`prevts_ = 5034`, the reading taken last, not the one taken on entry. -/
theorem pacing_state_updated_together_witness :
    (Decoded { VideoDecoder.new true with previmagets_ := 1000, prevts_ := 5000 }
      { timestamp_rtp_ := 1033, ntp_time_ms_ := 0, buffer := 7 }
      5010000000 5034000000).1.prevts_ = 5034 ∧
    (Decoded { VideoDecoder.new true with previmagets_ := 1000, prevts_ := 5000 }
      { timestamp_rtp_ := 1033, ntp_time_ms_ := 0, buffer := 7 }
      5010000000 5034000000).1.previmagets_ = 1033 ∧
    DecodedProgram { VideoDecoder.new true with previmagets_ := 1000, prevts_ := 5000 }
      { timestamp_rtp_ := 1033, ntp_time_ms_ := 0, buffer := 7 } 5010000000 5034000000 =
      [Stmt.now 5010000000, Stmt.sleep_for 23,
       Stmt.OnFrame { timestamp_rtp_ := 1033, ntp_time_ms_ := 0, buffer := 7 },
       Stmt.store_previmagets 1033, Stmt.now 5034000000, Stmt.store_prevts 5034] :=
  ⟨((pacing_state_updated_together
      { VideoDecoder.new true with previmagets_ := 1000, prevts_ := 5000 }
      { timestamp_rtp_ := 1033, ntp_time_ms_ := 0, buffer := 7 } 5010000000 5034000000
      (World.new true) Action.Start (fun _ => true) SessionCall.destroyDecoder).2.2.2.2.2.2.2.2.1
      (by decide) (by decide)).trans (by decide),
   (pacing_state_updated_together
      { VideoDecoder.new true with previmagets_ := 1000, prevts_ := 5000 }
      { timestamp_rtp_ := 1033, ntp_time_ms_ := 0, buffer := 7 } 5010000000 5034000000
      (World.new true) Action.Start (fun _ => true) SessionCall.destroyDecoder).2.2.2.2.2.2.2.2.2
      (by decide),
   by decide⟩

/-! ## Isolation of the parameter value -/

/-- Cutting a string at `find_first_of` keeps the longest prefix free of the characters
searched for. -/
theorem take_find_first_of (p : Char → Bool) (l : List Char) :
    (match l.findIdx? p with
      | some i => l.take i
      | none => l) = l.takeWhile (fun c => !p c) := by
  induction l with
  | nil => simp
  | cons c cs ih =>
    rw [List.findIdx?_cons]
    by_cases hc : p c = true
    · simp [hc, List.takeWhile_cons]
    · simp only [hc, Bool.false_eq_true, if_false, List.findIdx?_succ, List.takeWhile_cons]
      simp only [Bool.not_eq_true] at hc
      simp only [Bool.not_false, if_true]
      rw [← ih]
      cases List.findIdx? p cs <;> simp

/-- The first element left by `dropWhile` fails the test. -/
theorem dropWhile_head_not (p : Char → Bool) (l : List Char) (c : Char) (rest : List Char)
    (h : l.dropWhile p = c :: rest) : p c = false := by
  induction l with
  | nil => simp at h
  | cons a l ih =>
    rw [List.dropWhile_cons] at h
    by_cases ha : p a = true
    · rw [if_pos ha] at h
      exact ih h
    · rw [if_neg ha] at h
      simp only [List.cons.injEq] at h
      rw [← h.1]
      simpa using ha

theorem isolate_eq_takeWhile (sprop : List Char) :
    isolate sprop =
      (sprop.drop pattern.length).takeWhile (fun c => !(" ;\r\n".toList.contains c)) := by
  unfold isolate find_first_of
  exact take_find_first_of _ _

/-- The match of `strstr` is the first occurrence of the needle. -/
theorem strstr_first (needle : List Char) (haystack s : List Char)
    (h : strstr haystack needle = some s) :
    ∃ pre, haystack = pre ++ s ∧
      ∀ pre' post', haystack = pre' ++ needle ++ post' → pre.length ≤ pre'.length := by
  induction haystack with
  | nil =>
    unfold strstr at h
    split at h
    · simp only [Option.some.injEq] at h
      subst h
      exact ⟨[], rfl, fun _ _ _ => Nat.zero_le _⟩
    · exact Option.noConfusion h
  | cons c cs ih =>
    unfold strstr at h
    split at h
    · simp only [Option.some.injEq] at h
      subst h
      exact ⟨[], rfl, fun _ _ _ => Nat.zero_le _⟩
    · rename_i hp
      obtain ⟨pre, hpre, hfirst⟩ := ih h
      refine ⟨c :: pre, by rw [hpre]; rfl, ?_⟩
      intro pre' post' ho
      cases pre' with
      | nil =>
        exfalso
        apply hp
        rw [List.isPrefixOf_iff_prefix]
        exact ⟨post', by rw [ho]; rfl⟩
      | cons c' pre'' =>
        simp only [List.cons_append, List.cons.injEq] at ho
        have := hfirst pre'' post' (by rw [ho.2])
        simp only [List.length_cons]
        omega

/-- C13 as stated fails: a tab is whitespace but does not end the value.  For the text
`a=fmtp:96 sprop-parameter-sets=ab<TAB>cd;x` the value handed to the parameter-set
decoder is `ab<TAB>cd`. -/
theorem isolated_value_counterexample :
    Option.map isolate (strstr "a=fmtp:96 sprop-parameter-sets=ab\tcd;x".toList pattern) =
      some "ab\tcd".toList ∧
    '\t' ∈ "ab\tcd".toList ∧ Char.isWhitespace '\t' = true ∧
    getInitFrames [] echoDecodeSprop "H264" "a=fmtp:96 sprop-parameter-sets=ab\tcd;x".toList =
      [[97, 98, 9, 99, 100], []] := by
  decide

/-- C13, amended. For a text that contains `sprop-parameter-sets=`, the value handed to
the parameter-set decoder starts right after the first occurrence of the marker and ends
just before the next space, `;`, carriage return or line feed, or at the end of the text
when none follows.  So the value is a contiguous part of the text and contains none of
these four characters (other whitespace, such as a tab, does not end it). -/
theorem isolated_value (H26X_marker : List UInt8)
    (DecodeSprop : List Char → Option (List UInt8 × List UInt8))
    (sdp : List Char) (h : pattern <:+: sdp) :
    ∃ pre value tail,
      sdp = pre ++ pattern ++ value ++ tail ∧
      (∀ pre' post', sdp = pre' ++ pattern ++ post' → pre.length ≤ pre'.length) ∧
      (∀ c ∈ value, c ≠ ' ' ∧ c ≠ ';' ∧ c ≠ '\r' ∧ c ≠ '\n') ∧
      (tail = [] ∨ ∃ c rest, tail = c :: rest ∧ (c = ' ' ∨ c = ';' ∨ c = '\r' ∨ c = '\n')) ∧
      Option.map isolate (strstr sdp pattern) = some value ∧
      getInitFrames H26X_marker DecodeSprop "H264" sdp =
        (match DecodeSprop value with
          | some (sps_nalu, pps_nalu) => [H26X_marker ++ sps_nalu, H26X_marker ++ pps_nalu]
          | none => []) := by
  cases hs : strstr sdp pattern with
  | none => exact absurd h (strstr_none pattern sdp hs)
  | some sprop =>
    obtain ⟨pre, hpre, hfirst⟩ := strstr_first pattern sdp sprop hs
    obtain ⟨_, _, hp⟩ := strstr_some pattern sdp sprop hs
    obtain ⟨after, hafter⟩ := hp
    subst hafter
    have hval := isolate_eq_takeWhile (pattern ++ after)
    rw [List.drop_left] at hval
    refine ⟨pre, isolate (pattern ++ after),
      after.dropWhile (fun c => !(" ;\r\n".toList.contains c)), ?_, hfirst, ?_, ?_, rfl, ?_⟩
    · rw [hpre, hval, List.append_assoc, List.append_assoc,
        List.takeWhile_append_dropWhile]
    · intro c hc
      rw [hval] at hc
      have := List.mem_takeWhile_imp hc
      simp only [Bool.not_eq_true', List.contains_eq_any_beq, List.any_eq_false,
        beq_iff_eq] at this
      exact ⟨this ' ' (by decide), this ';' (by decide), this '\r' (by decide),
        this '\n' (by decide)⟩
    · cases ht : after.dropWhile (fun c => !(" ;\r\n".toList.contains c)) with
      | nil => exact Or.inl rfl
      | cons c rest =>
        refine Or.inr ⟨c, rest, rfl, ?_⟩
        have hh := dropWhile_head_not _ after c rest ht
        simp only [Bool.not_eq_false', List.contains_eq_any_beq,
          List.any_eq_true, beq_iff_eq] at hh
        obtain ⟨x, hx, hxc⟩ := hh
        rw [← hxc] at hx
        have hx' : c ∈ [' ', ';', '\r', '\n'] := hx
        simpa using hx'
    · unfold getInitFrames
      rw [if_pos rfl]
      simp only [hs]
      cases DecodeSprop (isolate (pattern ++ after)) with
      | none => rfl
      | some r => rfl

/-- An instance of the amended C13: the value ends at the `;`. -/
theorem isolated_value_witness :
    ∃ pre value tail,
      "a=fmtp:96 sprop-parameter-sets=Z0IAH5WoFAFuQA==,aM48gA==;x=1".toList =
        pre ++ pattern ++ value ++ tail ∧
      Option.map isolate
        (strstr "a=fmtp:96 sprop-parameter-sets=Z0IAH5WoFAFuQA==,aM48gA==;x=1".toList pattern) =
        some value ∧
      value = "Z0IAH5WoFAFuQA==,aM48gA==".toList := by
  obtain ⟨pre, value, tail, h1, _, _, _, h5, _⟩ := isolated_value exampleMarker
    exampleDecodeSprop "a=fmtp:96 sprop-parameter-sets=Z0IAH5WoFAFuQA==,aM48gA==;x=1".toList
    (by decide)
  refine ⟨pre, value, tail, h1, h5, ?_⟩
  have e : Option.map isolate
      (strstr "a=fmtp:96 sprop-parameter-sets=Z0IAH5WoFAFuQA==,aM48gA==;x=1".toList pattern) =
      some "Z0IAH5WoFAFuQA==,aM48gA==".toList := by decide
  rw [e] at h5
  exact (Option.some.inj h5).symm

/-! ## 32-bit source timestamps -/

theorem delayms_eq_periods (s : VideoDecoder) (f : VideoFrame) (ts : Int) :
    delayms s f ts = toInt64 (periodSource s f - periodDecode s ts) := rfl

/-- C14 as stated fails in its last part: two frames posted with timestamps 1 and 2^32
straddle a multiple of 2^32, the source delta is -1, and yet the second frame is
forwarded after a pacing sleep of 2 ms, because the wall clock stepped back by 3 ms
between the two frames (decode delta -3). -/
theorem source_delta_counterexample :
    (1 : Nat) ≤ 4294967296 ∧ 4294967296 - 1 < 2 ^ 32 ∧
    (1 : Nat) / 2 ^ 32 < 4294967296 / 2 ^ 32 ∧
    periodSource
      (run h264World
        [.Start, .PostFrame (some [1]) 1 .kVideoFrameKey,
         .PostFrame (some [2]) 4294967296 .kVideoFrameDelta,
         .worker (echoDecoder 0 0), .worker (echoDecoder 0 5000000000)]).vd
      { timestamp_rtp_ := (decodeCallOf (Frame.mk3 (some [2]) 4294967296
          .kVideoFrameDelta)).input_image.timestamp_rtp_,
        ntp_time_ms_ := 4294967296, buffer := 0 } = -1 ∧
    (run h264World
      [.Start, .PostFrame (some [1]) 1 .kVideoFrameKey,
       .PostFrame (some [2]) 4294967296 .kVideoFrameDelta,
       .worker (echoDecoder 0 0), .worker (echoDecoder 0 5000000000),
       .worker (echoDecoder 0 0), .worker (echoDecoder 4997000000 4998000000)]).events =
      [Event.OnFrame { timestamp_rtp_ := 1, ntp_time_ms_ := 1, buffer := 0 },
       Event.sleep_for 2,
       Event.OnFrame { timestamp_rtp_ := 0, ntp_time_ms_ := 4294967296, buffer := 0 }] := by
  decide

/-- C14, amended. The worker stores the posted 64-bit timestamp reduced modulo 2^32 in
the encoded image.  When the decoder hands that value back on the decoded frames, the
pacer's source delta for two consecutive frames posted with `t1 <= t2` is
`(t2 mod 2^32) - (t1 mod 2^32)`: it is `t2 - t1` when both lie in the same 2^32 window,
and `t2 - t1 - 2^32`, a negative number, when `t2 - t1 < 2^32` and they straddle a
multiple of 2^32.  In the latter case there is no pacing sleep provided the wall clock
has not run backwards since the previous frame. -/
theorem source_delta_32bit (s : VideoDecoder) (fr1 fr2 : Frame) (v1 v2 : VideoFrame)
    (c1 c2 c3 c4 : Int)
    (h1 : v1.timestamp_rtp_ = (decodeCallOf fr1).input_image.timestamp_rtp_)
    (h2 : v2.timestamp_rtp_ = (decodeCallOf fr2).input_image.timestamp_rtp_)
    (hle : fr1.timestamp_ms_ ≤ fr2.timestamp_ms_) :
    (decodeCallOf fr1).input_image.timestamp_rtp_ = fr1.timestamp_ms_ % 2 ^ 32 ∧
    periodSource (Decoded s v1 c1 c2).1 v2 =
      ((fr2.timestamp_ms_ % 2 ^ 32 : Nat) : Int) - ((fr1.timestamp_ms_ % 2 ^ 32 : Nat) : Int) ∧
    (fr1.timestamp_ms_ / 2 ^ 32 = fr2.timestamp_ms_ / 2 ^ 32 →
      periodSource (Decoded s v1 c1 c2).1 v2 =
        (fr2.timestamp_ms_ : Int) - (fr1.timestamp_ms_ : Int)) ∧
    (fr2.timestamp_ms_ - fr1.timestamp_ms_ < 2 ^ 32 →
      fr1.timestamp_ms_ / 2 ^ 32 < fr2.timestamp_ms_ / 2 ^ 32 →
      periodSource (Decoded s v1 c1 c2).1 v2 =
        (fr2.timestamp_ms_ : Int) - (fr1.timestamp_ms_ : Int) - 2 ^ 32 ∧
      periodSource (Decoded s v1 c1 c2).1 v2 < 0 ∧
      ((Decoded s v1 c1 c2).1.prevts_ ≤ nowMs c3 →
        sleptMs (Decoded (Decoded s v1 c1 c2).1 v2 c3 c4).2.1 = 0)) := by
  have hps : periodSource (Decoded s v1 c1 c2).1 v2 =
      ((fr2.timestamp_ms_ % 2 ^ 32 : Nat) : Int) - ((fr1.timestamp_ms_ % 2 ^ 32 : Nat) : Int) := by
    unfold periodSource Decoded VideoFrame.timestamp
    simp only [h1, h2, decodeCallOf, toUInt32, toInt64]
    omega
  refine ⟨rfl, hps, ?_, ?_⟩
  · intro hw
    rw [hps]
    omega
  · intro hd hw
    have hneg : periodSource (Decoded s v1 c1 c2).1 v2 =
        (fr2.timestamp_ms_ : Int) - (fr1.timestamp_ms_ : Int) - 2 ^ 32 := by
      rw [hps]
      omega
    have hlt : periodSource (Decoded s v1 c1 c2).1 v2 < 0 := by
      rw [hneg]
      omega
    refine ⟨hneg, hlt, ?_⟩
    intro hclock
    rw [sleptMs_Decoded, delayms_eq _ _ _ (PacingInv_Decoded s v1 c1 c2), if_neg]
    rintro ⟨_, _, h0, _⟩
    have hb := timestamp_lt v2
    have hi := (PacingInv_Decoded s v1 c1 c2).1
    have e : periodSource (Decoded s v1 c1 c2).1 v2 =
        (v2.timestamp : Int) - (Decoded s v1 c1 c2).1.previmagets_ := by
      unfold periodSource
      exact toInt64_of_inInt64 (by unfold InInt64; omega)
    omega

/-- An instance of the amended C14: timestamps 2^32 - 10 and 2^32 + 23, 33 ms apart,
give the source delta 33 - 2^32 and no sleep when the clock moved forward. -/
theorem source_delta_32bit_witness :
    periodSource
      (Decoded (VideoDecoder.new true)
        { timestamp_rtp_ := 4294967286, ntp_time_ms_ := 0, buffer := 0 } 0 5000000000).1
      { timestamp_rtp_ := 23, ntp_time_ms_ := 0, buffer := 0 } = 33 - 2 ^ 32 ∧
    sleptMs (Decoded
      (Decoded (VideoDecoder.new true)
        { timestamp_rtp_ := 4294967286, ntp_time_ms_ := 0, buffer := 0 } 0 5000000000).1
      { timestamp_rtp_ := 23, ntp_time_ms_ := 0, buffer := 0 } 5010000000 5011000000).2.1 = 0 :=
  ⟨((source_delta_32bit (VideoDecoder.new true)
      (Frame.mk3 (some [1]) 4294967286 .kVideoFrameKey)
      (Frame.mk3 (some [2]) 4294967319 .kVideoFrameDelta)
      { timestamp_rtp_ := 4294967286, ntp_time_ms_ := 0, buffer := 0 }
      { timestamp_rtp_ := 23, ntp_time_ms_ := 0, buffer := 0 }
      0 5000000000 5010000000 5011000000 (by decide) (by decide) (by decide)).2.2.2
      (by decide) (by decide)).1,
   ((source_delta_32bit (VideoDecoder.new true)
      (Frame.mk3 (some [1]) 4294967286 .kVideoFrameKey)
      (Frame.mk3 (some [2]) 4294967319 .kVideoFrameDelta)
      { timestamp_rtp_ := 4294967286, ntp_time_ms_ := 0, buffer := 0 }
      { timestamp_rtp_ := 23, ntp_time_ms_ := 0, buffer := 0 }
      0 5000000000 5010000000 5011000000 (by decide) (by decide) (by decide)).2.2.2
      (by decide) (by decide)).2.2 (by decide)⟩


end open3d.visualization.webrtc_server

/-! ## Download and verification -/

namespace open3d.data

theorem buffer_size_eq : buffer_size = 4096 := by decide

/-- The read loop feeds the whole file to the hash, in order. -/
theorem readLoop_all (fuel : Nat) (remaining ctx : List UInt8)
    (h : remaining.length / 4096 < fuel) : readLoop fuel remaining ctx = ctx ++ remaining := by
  induction fuel generalizing remaining ctx with
  | zero => omega
  | succ fuel ih =>
    unfold readLoop
    simp only [buffer_size_eq]
    split
    · rename_i hlt
      rw [List.take_of_length_le (by omega)]
    · rename_i hge
      rw [ih _ _ (by rw [List.length_drop]; omega), List.append_assoc, List.take_append_drop]

theorem hexDigit_mem (n : Nat) (h : n < 16) : hexDigit n ∈ hexDigits := by
  interval_cases n <;> decide

theorem hexLoop_length (hash : Nat → UInt8) (n : Nat) : (hexLoop hash n).length = 2 * n := by
  induction n with
  | zero => rfl
  | succ n ih =>
    unfold hexLoop
    rw [List.length_append, ih]
    rfl

theorem hexLoop_mem (hash : Nat → UInt8) (n : Nat) : ∀ c ∈ hexLoop hash n, c ∈ hexDigits := by
  induction n with
  | zero => intro c hc; simp [hexLoop] at hc
  | succ n ih =>
    intro c hc
    unfold hexLoop at hc
    rw [List.mem_append] at hc
    rcases hc with hc | hc
    · exact ih c hc
    · have hb := UInt8.toNat_lt (hash n)
      simp only [hexByte, List.mem_cons, List.mem_singleton, List.not_mem_nil, or_false] at hc
      rcases hc with hc | hc
      · rw [hc]; exact hexDigit_mem _ (by omega)
      · rw [hc]; exact hexDigit_mem _ (by omega)

/-- What `GetSHA256` returns is 64 lowercase hexadecimal characters. -/
theorem GetSHA256_format (env : Env) (fs : FileSystem) (file_path actual_hash : String)
    (h : GetSHA256 env fs file_path = some actual_hash) :
    actual_hash.length = 64 ∧ ∀ c ∈ actual_hash.toList, c ∈ hexDigits := by
  unfold GetSHA256 at h
  simp only at h
  split at h
  · exact Option.noConfusion h
  · simp only [Option.some.injEq] at h
    subst h
    exact ⟨hexLoop_length _ _, hexLoop_mem _ _⟩

/-- For a file that can be read, `GetSHA256` prints the digest of all its bytes. -/
theorem GetSHA256_readable (env : Env) (fs : FileSystem) (file_path : String)
    (bytes : List UInt8) (h : fs.content file_path = some bytes) :
    GetSHA256 env fs file_path =
      some (String.mk (hexLoop (fun i => (env.SHA256 bytes).getD i 0) SHA256_DIGEST_LENGTH)) := by
  unfold GetSHA256
  simp only [h]
  rw [readLoop_all _ _ _ (by omega)]
  rfl

/-- The skip block ends the call with `true` only on a matching digest. -/
theorem skipCheck_true (env : Env) (fs : FileSystem) (file_path sha256 : String)
    (always_download : Bool) (hne : sha256.isEmpty = false)
    (h : skipCheck env fs file_path sha256 always_download = some (.returned true)) :
    GetSHA256 env fs file_path = some sha256 := by
  unfold skipCheck at h
  simp only [hne] at h
  split at h
  · simp only [Bool.not_false, if_true] at h
    cases hg : GetSHA256 env fs file_path with
    | none => rw [hg] at h; simp at h
    | some actual_hash =>
      rw [hg] at h
      simp only at h
      split at h
      · rename_i heq
        rw [heq]
      · exact Option.noConfusion h
  · exact Option.noConfusion h

/-- The download block ends the call with `true` only on a matching digest of the file
it wrote. -/
theorem download_true (env : Env) (fs : FileSystem) (url file_path sha256 : String)
    (hne : sha256.isEmpty = false)
    (h : (download env fs url file_path sha256).1 = .returned true) :
    GetSHA256 env (download env fs url file_path sha256).2 file_path = some sha256 := by
  unfold download at h ⊢
  simp only [hne, Bool.not_false, if_true] at h ⊢
  split
  · split
    · split
      · rename_i hinit hopen hres
        simp only [hinit, hopen, hres, if_true] at h
        cases hg : GetSHA256 env (written fs file_path (env.curl_easy_perform url).2) file_path with
        | none => rw [hg] at h; simp at h
        | some actual_hash =>
          rw [hg] at h
          simp only at h ⊢
          split at h
          · rename_i heq
            rw [if_pos heq, hg, heq]
          · simp at h
      · rename_i hinit hopen hres
        simp [hinit, hopen, hres] at h
    · rename_i hinit hopen
      simp [hinit, hopen] at h
  · rename_i hinit
    simp [hinit] at h

/-- The hash check of `DownloadFromURL` where the code is defined: with a non-empty
expected `sha256`, whatever the other arguments, the file system and the transfer do,
the call returns `true` only if `GetSHA256` of the file at the resolved path, in the
file system the call leaves, equals the expected string, which is then 64 lowercase
hexadecimal characters.  When the call reaches the transfer (always so with
`always_download`) with curl initialised and the file opened for writing, it returns
`false` if the transfer fails, and `false` if the transfer succeeds and the digest of
the downloaded file differs. -/
theorem DownloadFromURL_hash_gate (env : Env) (fs : FileSystem)
    (url sha256 data_root subdir : String) (always_download print_progress : Bool)
    (hne : sha256.isEmpty = false) :
    ((DownloadFromURL env fs url sha256 data_root subdir always_download print_progress).1 =
        .returned true →
      GetSHA256 env
        (DownloadFromURL env fs url sha256 data_root subdir always_download print_progress).2
        (ResolveFilePath env url data_root subdir) = some sha256 ∧
      sha256.length = 64 ∧ ∀ c ∈ sha256.toList, c ∈ hexDigits) ∧
    (always_download = true →
      skipCheck env
        (ensureDirectory env fs (env.GetFileParentDirectory
          (ResolveFilePath env url data_root subdir)))
        (ResolveFilePath env url data_root subdir) sha256 always_download = none) ∧
    (skipCheck env
        (ensureDirectory env fs (env.GetFileParentDirectory
          (ResolveFilePath env url data_root subdir)))
        (ResolveFilePath env url data_root subdir) sha256 always_download = none →
      env.curl_easy_init = true →
      env.fopen (ensureDirectory env fs (env.GetFileParentDirectory
          (ResolveFilePath env url data_root subdir)))
        (ResolveFilePath env url data_root subdir) = true →
      ((env.curl_easy_perform url).1 ≠ CURLE_OK →
        (DownloadFromURL env fs url sha256 data_root subdir always_download print_progress).1 =
          .returned false) ∧
      ((env.curl_easy_perform url).1 = CURLE_OK →
        GetSHA256 env
          (written (ensureDirectory env fs (env.GetFileParentDirectory
              (ResolveFilePath env url data_root subdir)))
            (ResolveFilePath env url data_root subdir) (env.curl_easy_perform url).2)
          (ResolveFilePath env url data_root subdir) ≠ some sha256 →
        (DownloadFromURL env fs url sha256 data_root subdir always_download print_progress).1 =
          .returned false)) := by
  refine ⟨?_, ?_, ?_⟩
  · intro h
    have hg : GetSHA256 env
        (DownloadFromURL env fs url sha256 data_root subdir always_download print_progress).2
        (ResolveFilePath env url data_root subdir) = some sha256 := by
      unfold DownloadFromURL at h ⊢
      simp only at h ⊢
      cases hskip : skipCheck env
          (ensureDirectory env fs (env.GetFileParentDirectory
            (ResolveFilePath env url data_root subdir)))
          (ResolveFilePath env url data_root subdir) sha256 always_download with
      | some outcome =>
        rw [hskip] at h
        simp only at h ⊢
        subst h
        exact skipCheck_true env _ _ sha256 always_download hne hskip
      | none =>
        rw [hskip] at h
        simp only at h ⊢
        exact download_true env _ url _ sha256 hne h
    exact ⟨hg, GetSHA256_format env _ _ sha256 hg⟩
  · intro ha
    unfold skipCheck
    simp [ha]
  · intro hskip hinit hopen
    unfold DownloadFromURL
    simp only [hskip]
    unfold download
    simp only [hinit, hopen, hne, if_true, Bool.not_false]
    constructor
    · intro hres
      rw [if_neg hres]
    · intro hres hdiff
      rw [if_pos hres]
      cases hg : GetSHA256 env
          (written (ensureDirectory env fs (env.GetFileParentDirectory
              (ResolveFilePath env url data_root subdir)))
            (ResolveFilePath env url data_root subdir) (env.curl_easy_perform url).2)
          (ResolveFilePath env url data_root subdir) with
      | none =>
        exfalso
        have hr := GetSHA256_readable env
          (written (ensureDirectory env fs (env.GetFileParentDirectory
              (ResolveFilePath env url data_root subdir)))
            (ResolveFilePath env url data_root subdir) (env.curl_easy_perform url).2)
          (ResolveFilePath env url data_root subdir) (env.curl_easy_perform url).2
          (by simp [written])
        rw [hr] at hg
        exact Option.noConfusion hg
      | some actual_hash =>
        simp only
        rw [hg] at hdiff
        rw [if_neg (fun e => hdiff (by rw [e]))]

/-- An instance of the hash check: three bytes are downloaded into an empty file system;
the call returns `true` for the digest of those bytes and `false` for another expected
string. -/
theorem DownloadFromURL_hash_gate_witness :
    (DownloadFromURL (exampleEnv 0 [1, 2, 3]) emptyFileSystem "http://host/file.bin"
      "0303030303030303030303030303030303030303030303030303030303030303" "" "" false
      false).1 = .returned true ∧
    GetSHA256 (exampleEnv 0 [1, 2, 3])
      (DownloadFromURL (exampleEnv 0 [1, 2, 3]) emptyFileSystem "http://host/file.bin"
        "0303030303030303030303030303030303030303030303030303030303030303" "" "" false
        false).2
      (ResolveFilePath (exampleEnv 0 [1, 2, 3]) "http://host/file.bin" "" "") =
      some "0303030303030303030303030303030303030303030303030303030303030303" ∧
    (DownloadFromURL (exampleEnv 0 [1, 2, 3]) emptyFileSystem "http://host/file.bin"
      "ab" "" "" true false).1 = .returned false :=
  ⟨by decide,
   ((DownloadFromURL_hash_gate (exampleEnv 0 [1, 2, 3]) emptyFileSystem "http://host/file.bin"
      "0303030303030303030303030303030303030303030303030303030303030303" "" "" false false
      (by decide)).1 (by decide)).1,
   ((DownloadFromURL_hash_gate (exampleEnv 0 [1, 2, 3]) emptyFileSystem "http://host/file.bin"
      "ab" "" "" true false (by decide)).2.2 (by decide) rfl rfl).2 rfl (by decide)⟩

/-- C15. `DownloadFromURL` is to return `false` when the transfer fails, for every
file-system outcome.  The code checks the result of `curl_easy_init`
but not the result of `fopen`: when the file at the resolved path cannot be opened for
writing and the transfer fails (here with code 6, the host could not be resolved), the
null `FILE*` is handed to curl and to `fclose`, and the call does not return `false`. -/
theorem DownloadFromURL_unopened_file :
    ("ab" : String).isEmpty = false ∧
    (unwritableEnv 6 []).curl_easy_init = true ∧
    (unwritableEnv 6 []).fopen
      (ensureDirectory (unwritableEnv 6 []) emptyFileSystem
        ((unwritableEnv 6 []).GetFileParentDirectory
          (ResolveFilePath (unwritableEnv 6 []) "http://host/file.bin" "" "")))
      (ResolveFilePath (unwritableEnv 6 []) "http://host/file.bin" "" "") = false ∧
    ((unwritableEnv 6 []).curl_easy_perform "http://host/file.bin").1 ≠ CURLE_OK ∧
    (DownloadFromURL (unwritableEnv 6 []) emptyFileSystem "http://host/file.bin" "ab" "" ""
      true false).1 = Outcome.fault ∧
    (DownloadFromURL (unwritableEnv 6 []) emptyFileSystem "http://host/file.bin" "ab" "" ""
      true false).1 ≠ Outcome.returned false := by
  decide

end open3d.data
